import Mathlib

/-
  A verification development for the Consul service Syncer of this
  repository (command/agent/consul/syncer.go).

  Modelling conventions:
  * Go strings are Lean `String`s; `strings.HasPrefix` is prefix of the
    underlying character lists.
  * Go maps are association lists `List (String × α)` with insert-or-replace
    update (`alUpdate`), lookup (`alLookup`) and delete (`alDelete`); Go map
    iteration order is unspecified, the association-list order stands in for
    one iteration order.
  * The `notifySyncCh` channel, which in the source may be nil, is an
    `Option Bool`: `none` is a nil channel, `some p` a single-slot channel
    where `p` tells whether a signal is pending.
  * Calls to the Consul agent are recorded as `AgentCall` values; whether a
    given agent call fails is supplied by oracle functions `String → Bool`
    (the agent itself is an external collaborator of the engine).
  * `time.Duration` values are `Nat` nanoseconds; `Duration.String()` is a
    stand-in rendering whose exact text no claim depends on.
-/

namespace Nomad

/-- Lookup in an association list (a Go map read). -/
def alLookup {α : Type} (k : String) : List (String × α) → Option α
  | [] => none
  | (k', v) :: rest => if k' = k then some v else alLookup k rest

/-- Insert-or-replace in an association list (a Go map write). -/
def alUpdate {α : Type} (k : String) (v : α) : List (String × α) → List (String × α)
  | [] => [(k, v)]
  | (k', v') :: rest => if k' = k then (k, v) :: rest else (k', v') :: alUpdate k v rest

/-- Remove a key from an association list (Go `delete` on a map). -/
def alDelete {α : Type} (k : String) : List (String × α) → List (String × α)
  | [] => []
  | (k', v') :: rest => if k' = k then alDelete k rest else (k', v') :: alDelete k rest

/-- Go `strings.HasPrefix`, on the underlying character lists. -/
def hasPfx (s p : String) : Bool := p.data.isPrefixOf s.data

/-- Go `strings.Join(elems, sep)`. -/
def strJoin (sep : String) : List String → String
  | [] => ""
  | [s] => s
  | s :: rest => s ++ sep ++ strJoin sep rest

/-- `nomadServicePrefix`: the first prefix scoping all Nomad registered services. -/
def nomadServicePrefix : String := "_nomad"

/-- `ttlCheckBuffer = 31 * time.Second`, in nanoseconds. -/
def ttlCheckBuffer : Nat := 31000000000

/-- `structs.ServiceCheckHTTP`. -/
def ServiceCheckHTTP : String := "http"

/-- `structs.ServiceCheckTCP`. -/
def ServiceCheckTCP : String := "tcp"

/-- `structs.ServiceCheckScript`. -/
def ServiceCheckScript : String := "script"

/-- Stand-in for Go `time.Duration.String()` (exact text immaterial here). -/
def durToString (d : Nat) : String := toString d

/-- `structs.ServiceCheck` (package nomad/structs): the fields read by the
syncer: name, type, path, protocol, interval and timeout. -/
structure ServiceCheck where
  name : String
  type : String
  path : String
  protocol : String
  interval : Nat
  timeout : Nat
deriving DecidableEq

/-- `structs.Service` (package nomad/structs): the fields read by the
syncer: Name, Tags, PortLabel and Checks. -/
structure Service where
  name : String
  tags : List String
  portLabel : String
  checks : List ServiceCheck
deriving DecidableEq

/-- `consul.AgentServiceRegistration`: the fields the syncer writes or
compares (ID, Name, Tags, Port, Address, EnableTagOverride). -/
structure AgentServiceRegistration where
  id : String
  name : String
  tags : List String
  port : Int
  address : String
  enableTagOverride : Bool
deriving DecidableEq

/-- `consul.AgentService`: an entry of the agent's service inventory. -/
structure AgentService where
  id : String
  service : String
  tags : List String
  port : Int
  address : String
  enableTagOverride : Bool
deriving DecidableEq

/-- `consul.AgentCheckRegistration`: the fields the syncer writes
(ID, Name, Notes, ServiceID and the probe definition). -/
structure AgentCheckRegistration where
  id : String
  name : String
  notes : String
  serviceID : String
  http : String
  tcp : String
  ttl : String
  timeout : String
  interval : String
deriving DecidableEq

/-- `consul.AgentCheck`: an entry of the agent's check inventory
(the fields the syncer reads). -/
structure AgentCheck where
  checkID : String
  name : String
  notes : String
  serviceID : String
deriving DecidableEq

/-- The Syncer state: desired-state registry (servicesGroups / checkGroups),
tracked registry (trackedServices / trackedChecks), the delegated-check
runner table (keyed by check ID; the runner object itself is an external
execution context), the immediate-sync channel, and the two knobs installed
by SetAddrFinder / SetDelegatedChecks. -/
structure Syncer where
  servicesGroups : List (String × List (String × AgentServiceRegistration))
  checkGroups : List (String × List (String × List AgentCheckRegistration))
  trackedServices : List (String × AgentServiceRegistration)
  trackedChecks : List (String × AgentCheckRegistration)
  checkRunners : List String
  notifySyncCh : Option Bool
  addrFinder : String → String × Int
  delegateChecks : List String

/-- `NewSyncer`: all registries empty; the `notifySyncCh` field is absent
from the composite literal in the source, so the channel is nil (`none`).
The addrFinder and delegate-check set are the ones later installed through
`SetAddrFinder` / `SetDelegatedChecks`. -/
def newSyncer (addrFinder : String → String × Int) (delegateChecks : List String) : Syncer :=
  { servicesGroups := []
    checkGroups := []
    trackedServices := []
    trackedChecks := []
    checkRunners := []
    notifySyncCh := none
    addrFinder := addrFinder
    delegateChecks := delegateChecks }

/-- `GenerateServiceKey`: the name when there are no tags, otherwise
name-tag1-tag2-…. -/
def GenerateServiceKey (service : Service) : String :=
  match service.tags with
  | [] => service.name
  | _ => service.name ++ "-" ++ strJoin "-" service.tags

/-- `generateConsulServiceID domain key` = "_nomad-" ++ domain ++ "-" ++ key. -/
def generateConsulServiceID (domain : String) (key : String) : String :=
  nomadServicePrefix ++ "-" ++ domain ++ "-" ++ key

/-- `createService`: builds the AgentServiceRegistration for a service; the
address and port come from the addrFinder and are left at their zero value
when the finder returns "" or 0 (in the source this never fails, the error
result is always nil). -/
def createService (addrFinder : String → String × Int) (service : Service)
    (domain : String) (key : String) : AgentServiceRegistration :=
  let hostPort := addrFinder service.portLabel
  { id := generateConsulServiceID domain key
    name := service.name
    tags := service.tags
    port := if hostPort.2 ≠ 0 then hostPort.2 else 0
    address := if hostPort.1 ≠ "" then hostPort.1 else ""
    enableTagOverride := false }

/-- Modelled from the spec: `structs.ServiceCheck.Hash` (package
nomad/structs, not under src) — a stable content hash over the check spec
fields and the owning service ID, deterministic across restarts; identical
specs under the same service collapse to the same ID.  Modelled as a
deterministic field encoding. -/
def checkHash (check : ServiceCheck) (serviceID : String) : String :=
  "h:" ++ check.name ++ "|" ++ check.type ++ "|" ++ check.path ++ "|" ++
    check.protocol ++ "|" ++ toString check.interval ++ "|" ++
    toString check.timeout ++ "|" ++ serviceID

/-- `createCheckReg`: builds the AgentCheckRegistration for a check; the
probe definition depends on the check type, unknown types are an error.
The url.URL rendering of the HTTP case is modelled as plain concatenation. -/
def createCheckReg (check : ServiceCheck) (service : AgentServiceRegistration) :
    Except String AgentCheckRegistration :=
  let chkReg : AgentCheckRegistration :=
    { id := checkHash check service.id
      name := check.name
      notes := ""
      serviceID := service.id
      http := ""
      tcp := ""
      ttl := ""
      timeout := durToString check.timeout
      interval := durToString check.interval }
  if check.type = ServiceCheckHTTP then
    let protocol := if check.protocol = "" then "http" else check.protocol
    Except.ok { chkReg with
      http := protocol ++ "://" ++ service.address ++ ":" ++ toString service.port ++ check.path }
  else if check.type = ServiceCheckTCP then
    Except.ok { chkReg with tcp := service.address ++ ":" ++ toString service.port }
  else if check.type = ServiceCheckScript then
    Except.ok { chkReg with ttl := durToString (check.interval + ttlCheckBuffer) }
  else
    Except.error ("check type " ++ check.type ++ " not valid")

/-- `compareConsulCheck`: a local check registration and an agent check are
equal when CheckID, Name, Notes and ServiceID agree. -/
def compareConsulCheck (localCheck : AgentCheckRegistration) (consulCheck : AgentCheck) : Bool :=
  if consulCheck.checkID ≠ localCheck.id ∨ consulCheck.name ≠ localCheck.name ∨
      consulCheck.notes ≠ localCheck.notes ∨ consulCheck.serviceID ≠ localCheck.serviceID then
    false
  else
    true

/-- The tag map built by `compareConsulService`: every local tag is recorded
with state 'l'. -/
def buildTagMap (tags : List String) : List (String × Char) :=
  tags.foldl (fun m t => alUpdate t 'l' m) []

/-- The loop of `compareConsulService` over the agent's tags: a tag absent
from the local tag map means inequality (`none`); a present tag is marked
'b' (both). -/
def markConsulTags : List (String × Char) → List String → Option (List (String × Char))
  | m, [] => some m
  | m, t :: ts =>
    match alLookup t m with
    | none => none
    | some _ => markConsulTags (alUpdate t 'b' m) ts

/-- The tag comparison of `compareConsulService`: build the local tag map,
mark the agent's tags, and require that no tag stayed local-only. -/
def compareTags (localTags consulTags : List String) : Bool :=
  match markConsulTags (buildTagMap localTags) consulTags with
  | none => false
  | some m => m.all (fun kv => kv.2 ≠ 'l')

/-- `compareConsulService`: ID, Name, Port, Address and EnableTagOverride
must agree, and the tag membership test must pass. -/
def compareConsulService (localService : AgentServiceRegistration) (consulService : AgentService) : Bool :=
  if consulService.id ≠ localService.id ∨ consulService.service ≠ localService.name ∨
      consulService.port ≠ localService.port ∨ consulService.address ≠ localService.address ∨
      consulService.enableTagOverride ≠ localService.enableTagOverride then
    false
  else
    compareTags localService.tags consulService.tags

/-- `filterConsulServices`: keep an agent service iff its ID has the prefix
"_nomad-" ++ domain for some domain of servicesGroups (the inner loop with
break is a `List.any`). -/
def filterConsulServices (domains : List String) (consulServices : List AgentService) :
    List AgentService :=
  consulServices.filter
    (fun service => domains.any (fun domain => hasPfx service.id (nomadServicePrefix ++ "-" ++ domain)))

/-- `filterConsulChecks`: keep an agent check iff its owning ServiceID has
the prefix "_nomad-" ++ domain for some domain of checkGroups. -/
def filterConsulChecks (domains : List String) (consulChecks : List AgentCheck) :
    List AgentCheck :=
  consulChecks.filter
    (fun check => domains.any (fun domain => hasPfx check.serviceID (nomadServicePrefix ++ "-" ++ domain)))

/-- `flattenedServices`: all service registrations of all domains. -/
def flattenedServices (c : Syncer) : List AgentServiceRegistration :=
  ((c.servicesGroups.map Prod.snd).flatten).map Prod.snd

/-- `flattenedChecks`: all check registrations of all domains and keys. -/
def flattenedChecks (c : Syncer) : List AgentCheckRegistration :=
  (((c.checkGroups.map Prod.snd).flatten).map Prod.snd).flatten

/-- `SyncNow`: a non-blocking send on notifySyncCh.  On a nil channel the
select takes its default case and the signal is dropped; on the single-slot
channel the signal is pending afterwards (a new signal is dropped when one
is already pending). -/
def syncNowChan : Option Bool → Option Bool
  | none => none
  | some _ => some true

/-- The accumulator of the construction loop of `SetServices`:
registeredServices, registeredChecks, the live runner table (runners are
registered in `c.checkRunners` as soon as they are created) and the
collected construction errors. -/
structure SSAcc where
  regServices : List (String × AgentServiceRegistration)
  regChecks : List (String × List AgentCheckRegistration)
  runners : List String
  errors : List String

/-- One check of one service inside `SetServices`: create the check
registration (collecting the error on an unknown type); for a delegated
check type, skip the check entirely when a runner for its ID already
exists, otherwise create the runner (the external factory is modelled as
succeeding with a check bound to exactly the given ID) and record the
registration; for a non-delegated type just record the registration. -/
def processCheck (delegates : List String) (reg : AgentServiceRegistration)
    (serviceKey : String) (acc : SSAcc) (chk : ServiceCheck) : SSAcc :=
  match createCheckReg chk reg with
  | Except.error e => { acc with errors := acc.errors ++ [e] }
  | Except.ok chkReg =>
    if delegates.contains chk.type then
      if acc.runners.contains chkReg.id then acc
      else
        { acc with
          runners := acc.runners ++ [chkReg.id]
          regChecks :=
            alUpdate serviceKey (((alLookup serviceKey acc.regChecks).getD []) ++ [chkReg]) acc.regChecks }
    else
      { acc with
        regChecks :=
          alUpdate serviceKey (((alLookup serviceKey acc.regChecks).getD []) ++ [chkReg]) acc.regChecks }

/-- One service inside the construction loop of `SetServices`: create the
service registration (never fails in the source) and process its checks. -/
def processService (delegates : List String) (addrFinder : String → String × Int)
    (domain : String) (acc : SSAcc) (kv : String × Service) : SSAcc :=
  let reg := createService addrFinder kv.2 domain kv.1
  let acc := { acc with regServices := alUpdate kv.1 reg acc.regServices }
  kv.2.checks.foldl (processCheck delegates reg kv.1) acc

/-- The write-back loop of `SetServices`: every registered entry is
upserted into the domain's group (creating the inner map when absent). -/
def mergeGroup {α : Type} (groups : List (String × List (String × α)))
    (domain : String) (entries : List (String × α)) : List (String × List (String × α)) :=
  entries.foldl
    (fun g kv => alUpdate domain (alUpdate kv.1 kv.2 ((alLookup domain g).getD [])) g) groups

/-- `SetServices`: construct registrations for every entry of the services
map, collecting construction errors; when any error occurred return the
aggregated multi-error without touching the desired-state registry (the
runners created so far remain); otherwise merge the registrations into the
domain's groups and signal an immediate sync.  The returned list is the
multi-error (empty = nil). -/
def setServices (c : Syncer) (domain : String) (services : List (String × Service)) :
    Syncer × List String :=
  let acc0 : SSAcc := { regServices := [], regChecks := [], runners := c.checkRunners, errors := [] }
  let acc := services.foldl (processService c.delegateChecks c.addrFinder domain) acc0
  if acc.errors = [] then
    ({ c with
        servicesGroups := mergeGroup c.servicesGroups domain acc.regServices
        checkGroups := mergeGroup c.checkGroups domain acc.regChecks
        checkRunners := acc.runners
        notifySyncCh := syncNowChan c.notifySyncCh }, [])
  else
    ({ c with checkRunners := acc.runners }, acc.errors)

/-- The four states of the merged diff map ('l', 'e', 'c', 'a' in the
source). -/
inductive DiffTag : Type
  | l
  | e
  | c
  | a
deriving DecidableEq

/-- One entry of the merged diff map: the registration and its state. -/
structure MergedEntry (α : Type) where
  reg : α
  tag : DiffTag

/-- The four partitions returned by the diff calculations. -/
structure Diff (α : Type) where
  missing : List α
  equal : List α
  changed : List α
  stale : List α

/-- The seeding loop of the diff calculations: every local registration is
entered into the merged map in state 'l'. -/
def diffSeed {α : Type} (idL : α → String) (locals : List α) :
    List (String × MergedEntry α) :=
  locals.foldl (fun m s => alUpdate (idL s) ⟨s, DiffTag.l⟩ m) []

/-- The agent loop of the diff calculations: an agent entry found in the
merged map marks it 'e' (equal) or 'c' (changed) by the comparison; an
agent-only entry is synthesized in state 'a'. -/
def diffStep {α β : Type} (idC : β → String) (cmp : α → β → Bool) (synth : β → α)
    (m : List (String × MergedEntry α)) (cs : β) : List (String × MergedEntry α) :=
  match alLookup (idC cs) m with
  | some entry =>
    alUpdate (idC cs) ⟨entry.reg, if cmp entry.reg cs then DiffTag.e else DiffTag.c⟩ m
  | none => alUpdate (idC cs) ⟨synth cs, DiffTag.a⟩ m

/-- The diff algorithm shared by `calcServicesDiff` and `calcChecksDiff`:
seed the merged map with every local registration in state 'l'; walk the
agent's inventory marking found entries 'e' or 'c' by the comparison and
synthesizing agent-only entries in state 'a'; then partition by state. -/
def calcDiff {α β : Type} (idL : α → String) (idC : β → String)
    (cmp : α → β → Bool) (synth : β → α)
    (locals : List α) (consul : List β) : Diff α :=
  let m1 : List (String × MergedEntry α) :=
    consul.foldl (diffStep idC cmp synth) (diffSeed idL locals)
  { missing := m1.filterMap (fun kv => if kv.2.tag = DiffTag.l then some kv.2.reg else none)
    equal := m1.filterMap (fun kv => if kv.2.tag = DiffTag.e then some kv.2.reg else none)
    changed := m1.filterMap (fun kv => if kv.2.tag = DiffTag.c then some kv.2.reg else none)
    stale := m1.filterMap (fun kv => if kv.2.tag = DiffTag.a then some kv.2.reg else none) }

/-- The agent-only service synthesized by `calcServicesDiff` (lines 658-664:
EnableTagOverride is not copied, so it is the zero value). -/
def synthService (cs : AgentService) : AgentServiceRegistration :=
  { id := cs.id, name := cs.service, tags := cs.tags, port := cs.port,
    address := cs.address, enableTagOverride := false }

/-- `calcServicesDiff` = the shared diff over flattened local services and
the agent's (filtered) services. -/
def calcServicesDiff (locals : List AgentServiceRegistration) (consul : List AgentService) :
    Diff AgentServiceRegistration :=
  calcDiff (fun s => s.id) (fun cs => cs.id) compareConsulService synthService locals consul

/-- The agent-only check synthesized by `calcChecksDiff` (lines 546-551). -/
def synthCheck (cc : AgentCheck) : AgentCheckRegistration :=
  { id := cc.checkID, name := cc.name, notes := cc.notes, serviceID := cc.serviceID,
    http := "", tcp := "", ttl := "", timeout := "", interval := "" }

/-- `calcChecksDiff` = the shared diff over flattened local checks and the
agent's (filtered) checks. -/
def calcChecksDiff (locals : List AgentCheckRegistration) (consul : List AgentCheck) :
    Diff AgentCheckRegistration :=
  calcDiff (fun c => c.id) (fun cc => cc.checkID) compareConsulCheck synthCheck locals consul

/-- The remote calls a sync issues against the agent. -/
inductive AgentCall : Type
  | svcRegister (id : String)
  | svcDeregister (id : String)
  | chkRegister (id : String)
  | chkDeregister (id : String)
deriving DecidableEq

/-- Result of a sync phase: the state after it, the agent calls issued, and
the aggregated multi-error. -/
structure SyncRes where
  st : Syncer
  calls : List AgentCall
  errors : List String

/-- The missing-services loop body of `syncServices`: issue ServiceRegister
and update the tracked entry right after the call, whether or not the call
failed (the error is only aggregated). -/
def svcMissingStep (regErr : String → Bool) (r : SyncRes) (svc : AgentServiceRegistration) :
    SyncRes :=
  { st := { r.st with trackedServices := alUpdate svc.id svc r.st.trackedServices }
    calls := r.calls ++ [AgentCall.svcRegister svc.id]
    errors := if regErr svc.id then r.errors ++ ["service register failed: " ++ svc.id] else r.errors }

/-- The changed-services loop body of `syncServices`: re-register, tracked
state untouched. -/
def svcChangedStep (regErr : String → Bool) (r : SyncRes) (svc : AgentServiceRegistration) :
    SyncRes :=
  { r with
    calls := r.calls ++ [AgentCall.svcRegister svc.id]
    errors := if regErr svc.id then r.errors ++ ["service register failed: " ++ svc.id] else r.errors }

/-- The stale-services loop body of `syncServices`: issue ServiceDeregister
and delete the tracked entry right after the call, whether or not the call
failed. -/
def svcStaleStep (deregErr : String → Bool) (r : SyncRes) (svc : AgentServiceRegistration) :
    SyncRes :=
  { st := { r.st with trackedServices := alDelete svc.id r.st.trackedServices }
    calls := r.calls ++ [AgentCall.svcDeregister svc.id]
    errors := if deregErr svc.id then r.errors ++ ["service deregister failed: " ++ svc.id] else r.errors }

/-- `syncServices`: query (modelled as the given raw inventory) and filter
the agent's services, diff, then run the missing, changed and stale loops. -/
def syncServicesModel (c : Syncer) (consulRaw : List AgentService)
    (regErr deregErr : String → Bool) : SyncRes :=
  let consul := filterConsulServices (c.servicesGroups.map Prod.fst) consulRaw
  let diff := calcServicesDiff (flattenedServices c) consul
  let r1 := diff.missing.foldl (svcMissingStep regErr) ⟨c, [], []⟩
  let r2 := diff.changed.foldl (svcChangedStep regErr) r1
  diff.stale.foldl (svcStaleStep deregErr) r2

/-- The missing-checks loop body of `syncChecks`: issue CheckRegister
(starting the runner when one exists is a side effect on the external
runner object) and update the tracked entry right after the call, whether
or not the call failed. -/
def chkMissingStep (regErr : String → Bool) (r : SyncRes) (chk : AgentCheckRegistration) :
    SyncRes :=
  { st := { r.st with trackedChecks := alUpdate chk.id chk r.st.trackedChecks }
    calls := r.calls ++ [AgentCall.chkRegister chk.id]
    errors := if regErr chk.id then r.errors ++ ["check register failed: " ++ chk.id] else r.errors }

/-- The changed-checks loop body of `syncChecks`: re-register, tracked
state untouched. -/
def chkChangedStep (regErr : String → Bool) (r : SyncRes) (chk : AgentCheckRegistration) :
    SyncRes :=
  { r with
    calls := r.calls ++ [AgentCall.chkRegister chk.id]
    errors := if regErr chk.id then r.errors ++ ["check register failed: " ++ chk.id] else r.errors }

/-- The stale-checks loop body of `syncChecks`: `deregisterCheck` removes
the runner only when the agent call succeeded (on failure it returns before
touching the runner table), while the tracked entry is deleted
unconditionally afterwards. -/
def chkStaleStep (deregErr : String → Bool) (r : SyncRes) (chk : AgentCheckRegistration) :
    SyncRes :=
  { st := { r.st with
              checkRunners :=
                if deregErr chk.id then r.st.checkRunners
                else r.st.checkRunners.filter (fun rid => rid ≠ chk.id)
              trackedChecks := alDelete chk.id r.st.trackedChecks }
    calls := r.calls ++ [AgentCall.chkDeregister chk.id]
    errors := if deregErr chk.id then r.errors ++ ["check deregister failed: " ++ chk.id] else r.errors }

/-- `syncChecks`: query (modelled as the given raw inventory) and filter
the agent's checks, diff, then run the missing, changed and stale loops. -/
def syncChecksModel (c : Syncer) (consulRaw : List AgentCheck)
    (regErr deregErr : String → Bool) : SyncRes :=
  let consul := filterConsulChecks (c.checkGroups.map Prod.fst) consulRaw
  let diff := calcChecksDiff (flattenedChecks c) consul
  let r1 := diff.missing.foldl (chkMissingStep regErr) ⟨c, [], []⟩
  let r2 := diff.changed.foldl (chkChangedStep regErr) r1
  diff.stale.foldl (chkStaleStep deregErr) r2

/-- `RunHandlers`: every periodic handler runs; the errors of the failing
ones are aggregated into one multi-error.  A handler's outcome is modelled
as `Option String` (none = success). -/
def runHandlers (handlers : List (Option String)) : List String :=
  handlers.filterMap id

/-- `SyncServices`: run all handlers and abort with their aggregated error
when any failed; otherwise sync services, abort on its multi-error;
otherwise sync checks. -/
def SyncServicesModel (c : Syncer) (handlers : List (Option String))
    (consulSvcs : List AgentService) (consulChks : List AgentCheck)
    (svcRegErr svcDeregErr chkRegErr chkDeregErr : String → Bool) : SyncRes :=
  let herrs := runHandlers handlers
  if herrs = [] then
    let r1 := syncServicesModel c consulSvcs svcRegErr svcDeregErr
    if r1.errors = [] then
      let r2 := syncChecksModel r1.st consulChks chkRegErr chkDeregErr
      ⟨r2.st, r1.calls ++ r2.calls, r2.errors⟩
    else r1
  else ⟨c, [], herrs⟩

/-- The delegated check IDs derived from a services map: for every service
entry, the IDs of its checks whose type is constructible (http, tcp or
script) and belongs to the delegated set.  Used to characterise the runner
table produced by `setServices`. -/
def delegatedCheckIDs (delegates : List String) (domain : String)
    (services : List (String × Service)) : List String :=
  services.foldl
    (fun acc kv =>
      acc ++ kv.2.checks.filterMap
        (fun chk =>
          if (chk.type = ServiceCheckHTTP ∨ chk.type = ServiceCheckTCP ∨
                chk.type = ServiceCheckScript) ∧ delegates.contains chk.type then
            some (checkHash chk (generateConsulServiceID domain kv.1))
          else none))
    []

/-- Character-list version of the dash-join, the reasoning device for
`GenerateServiceKey` (a Go string is its character list). -/
def joinL : List (List Char) → List Char
  | [] => []
  | [x] => x
  | x :: y :: rest => x ++ '-' :: joinL (y :: rest)

/-! Concrete fixtures used by witnesses and counterexamples. -/

/-- Fixture: an addrFinder resolving every port label to 1.2.3.4:4647. -/
def afFix : String → String × Int := fun _ => ("1.2.3.4", 4647)

/-- Fixture: a service named web with no tags and no checks. -/
def svcWeb : Service := { name := "web", tags := [], portLabel := "rpc", checks := [] }

/-- Fixture: a check of unknown type (construction fails). -/
def badCheck : ServiceCheck :=
  { name := "b", type := "garbage", path := "", protocol := "", interval := 10, timeout := 2 }

/-- Fixture: a script check (a delegated type). -/
def chkScript : ServiceCheck :=
  { name := "s", type := "script", path := "", protocol := "", interval := 10, timeout := 2 }

/-- Fixture: a service whose only check has an unknown type. -/
def svcBadCheck : Service :=
  { name := "bad", tags := [], portLabel := "rpc", checks := [badCheck] }

/-- Fixture: a service with a failing check followed by a script check. -/
def mixedSvc : Service :=
  { name := "mix", tags := [], portLabel := "rpc", checks := [badCheck, chkScript] }

/-- Fixture: a service with one script check only. -/
def scriptSvc : Service :=
  { name := "scr", tags := [], portLabel := "rpc", checks := [chkScript] }

/-- Fixture: the syncer state after registering svcWeb under domain client
on a fresh engine. -/
def webSt : Syncer := (setServices (newSyncer afFix []) "client" [("web", svcWeb)]).1

/-- Fixture: a registration as `createService` derives it for svcWeb in
domain client under `afFix`. -/
def webReg : AgentServiceRegistration :=
  { id := "_nomad-client-web", name := "web", tags := [], port := 4647,
    address := "1.2.3.4", enableTagOverride := false }

/-- Fixture: the agent-side view matching `webReg` exactly. -/
def webAgentSvc : AgentService :=
  { id := "_nomad-client-web", service := "web", tags := [], port := 4647,
    address := "1.2.3.4", enableTagOverride := false }

/-- Fixture: a local check registration owned by `webReg`. -/
def webChk : AgentCheckRegistration :=
  { id := "c1", name := "n", notes := "", serviceID := "_nomad-client-web",
    http := "", tcp := "", ttl := "", timeout := "", interval := "" }

/-- Fixture: the agent-side view matching `webChk` exactly. -/
def webAgentChk : AgentCheck :=
  { checkID := "c1", name := "n", notes := "", serviceID := "_nomad-client-web" }

/-- Fixture: webSt with the matching check also present in desired state. -/
def webChkSt : Syncer :=
  { webSt with checkGroups := [("client", [("web", [webChk])])] }

/-- Fixture: a ghost agent service whose ID extends "_nomad-client" without
the domain hyphen. -/
def ghostSvc : AgentService :=
  { id := "_nomad-clientX", service := "g", tags := [], port := 0, address := "",
    enableTagOverride := false }

/-- Fixture: a local registration with a duplicated tag. -/
def dupTagReg : AgentServiceRegistration :=
  { id := "s1", name := "web", tags := ["a", "a"], port := 80, address := "1.2.3.4",
    enableTagOverride := false }

/-- Fixture: the agent-side service with the tag listed once. -/
def dupTagAgentSvc : AgentService :=
  { id := "s1", service := "web", tags := ["a"], port := 80, address := "1.2.3.4",
    enableTagOverride := false }

/-- Fixture: a service whose name contains a hyphen. -/
def svcKeyA : Service := { name := "a-b", tags := [], portLabel := "", checks := [] }

/-- Fixture: a service whose name-tag pair differs from svcKeyA yet joins to
the same key. -/
def svcKeyB : Service := { name := "a", tags := ["b"], portLabel := "", checks := [] }

/-- Fixture: a hyphen-free named service. -/
def svcPlain1 : Service := { name := "web", tags := [], portLabel := "", checks := [] }

/-- Fixture: another hyphen-free named service. -/
def svcPlain2 : Service := { name := "api", tags := ["x"], portLabel := "", checks := [] }

/-- Fixture: the services map with one good and one failing entry. -/
def mGoodBad : List (String × Service) := [("good", svcWeb), ("bad", svcBadCheck)]

/-! Association-list toolkit lemmas. -/

theorem alLookup_alUpdate {α : Type} (k k' : String) (v : α) (m : List (String × α)) :
    alLookup k (alUpdate k' v m) = if k' = k then some v else alLookup k m := by
  induction m with
  | nil => simp [alLookup, alUpdate]
  | cons hd tl ih =>
    obtain ⟨kh, vh⟩ := hd
    by_cases h1 : kh = k'
    · subst h1
      by_cases h2 : kh = k <;> simp [alLookup, alUpdate, h2]
    · by_cases h2 : kh = k
      · subst h2
        simp [alLookup, alUpdate, h1, Ne.symm h1]
      · simp [alLookup, alUpdate, h1, h2, ih]

theorem alLookup_cons_self {α : Type} (k : String) (v : α) (m : List (String × α)) :
    alLookup k ((k, v) :: m) = some v := by
  simp [alLookup]

theorem alLookup_cons_ne {α : Type} {kh k : String} (vh : α) (m : List (String × α))
    (h : kh ≠ k) : alLookup k ((kh, vh) :: m) = alLookup k m := by
  simp [alLookup, h]

theorem alUpdate_cons_self {α : Type} (k : String) (v vh : α) (m : List (String × α)) :
    alUpdate k v ((k, vh) :: m) = (k, v) :: m := by
  simp [alUpdate]

theorem alUpdate_cons_ne {α : Type} {kh k : String} (v vh : α) (m : List (String × α))
    (h : kh ≠ k) : alUpdate k v ((kh, vh) :: m) = (kh, vh) :: alUpdate k v m := by
  simp [alUpdate, h]

theorem alLookup_eq_none_iff {α : Type} (k : String) (m : List (String × α)) :
    alLookup k m = none ↔ k ∉ m.map Prod.fst := by
  induction m with
  | nil => simp [alLookup]
  | cons hd tl ih =>
    obtain ⟨kh, vh⟩ := hd
    rw [List.map_cons, List.mem_cons]
    by_cases h : kh = k
    · subst h
      rw [alLookup_cons_self]
      simp
    · rw [alLookup_cons_ne _ _ h, ih]
      constructor
      · intro hn hc
        rcases hc with hc | hc
        · exact h hc.symm
        · exact hn hc
      · intro hn hc
        exact hn (Or.inr hc)

theorem mem_of_alLookup {α : Type} {k : String} {v : α} {m : List (String × α)}
    (h : alLookup k m = some v) : (k, v) ∈ m := by
  induction m with
  | nil => simp [alLookup] at h
  | cons hd tl ih =>
    obtain ⟨kh, vh⟩ := hd
    by_cases hk : kh = k
    · subst hk
      rw [alLookup_cons_self, Option.some.injEq] at h
      rw [← h]
      exact List.mem_cons_self _ _
    · rw [alLookup_cons_ne _ _ hk] at h
      exact List.mem_cons_of_mem _ (ih h)

theorem alLookup_of_mem {α : Type} {k : String} {v : α} {m : List (String × α)}
    (hnd : (m.map Prod.fst).Nodup) (h : (k, v) ∈ m) : alLookup k m = some v := by
  induction m with
  | nil => simp at h
  | cons hd tl ih =>
    obtain ⟨kh, vh⟩ := hd
    rw [List.map_cons, List.nodup_cons] at hnd
    rcases List.mem_cons.mp h with h1 | h1
    · have hk : k = kh := congrArg Prod.fst h1
      have hv : v = vh := congrArg Prod.snd h1
      rw [hk, hv, alLookup_cons_self]
    · have hk : kh ≠ k := by
        intro he
        subst he
        exact hnd.1 (List.mem_map.mpr ⟨(kh, v), h1, rfl⟩)
      rw [alLookup_cons_ne _ _ hk]
      exact ih hnd.2 h1

theorem mem_keys_alUpdate {α : Type} (k k' : String) (v : α) (m : List (String × α)) :
    k' ∈ ((alUpdate k v m).map Prod.fst) ↔ k' = k ∨ k' ∈ m.map Prod.fst := by
  induction m with
  | nil =>
    rw [show alUpdate k v ([] : List (String × α)) = [(k, v)] from rfl]
    simp
  | cons hd tl ih =>
    obtain ⟨kh, vh⟩ := hd
    by_cases h : kh = k
    · subst h
      rw [alUpdate_cons_self]
      simp only [List.map_cons, List.mem_cons]
      tauto
    · rw [alUpdate_cons_ne _ _ _ h, List.map_cons, List.map_cons, List.mem_cons,
        List.mem_cons, ih]
      tauto

theorem nodup_keys_alUpdate {α : Type} (k : String) (v : α) (m : List (String × α))
    (hnd : (m.map Prod.fst).Nodup) : ((alUpdate k v m).map Prod.fst).Nodup := by
  induction m with
  | nil => simp [alUpdate]
  | cons hd tl ih =>
    obtain ⟨kh, vh⟩ := hd
    rw [List.map_cons, List.nodup_cons] at hnd
    by_cases h : kh = k
    · subst h
      rw [alUpdate_cons_self, List.map_cons, List.nodup_cons]
      exact hnd
    · rw [alUpdate_cons_ne _ _ _ h, List.map_cons, List.nodup_cons]
      constructor
      · intro hc
        rcases (mem_keys_alUpdate k kh v tl).mp hc with h1 | h1
        · exact h h1
        · exact hnd.1 h1
      · exact ih hnd.2

theorem alUpdate_of_not_mem {α : Type} (k : String) (v : α) (m : List (String × α))
    (h : k ∉ m.map Prod.fst) : alUpdate k v m = m ++ [(k, v)] := by
  induction m with
  | nil => simp [alUpdate]
  | cons hd tl ih =>
    obtain ⟨kh, vh⟩ := hd
    rw [List.map_cons, List.mem_cons] at h
    push_neg at h
    rw [alUpdate_cons_ne _ _ _ (Ne.symm h.1), List.cons_append, ih h.2]

/-! C2 — the immediate-sync signal. -/

/-- C2: refuted by the source — `NewSyncer` never initialises
`notifySyncCh` (the field is absent from the composite literal at lines
214-225), so the channel stays nil forever; the non-blocking send in
`SyncNow` then always takes the select's default case and the Run loop's
receive on the nil channel can never fire.  Evaluating the code at the
failing input: after a successful `SetServices` on a freshly constructed
Syncer no immediate-sync signal is pending, against the claim that one is
pending after every successful `SetServices`. -/
theorem C2_nil_sync_channel :
    (setServices (newSyncer afFix []) "client" [("web", svcWeb)]).2 = [] ∧
    (setServices (newSyncer afFix []) "client" [("web", svcWeb)]).1.notifySyncCh = none ∧
    syncNowChan (newSyncer afFix []).notifySyncCh = none :=
  ⟨rfl, rfl, rfl⟩

/-! C3 — the ownership filters. -/

/-- C3 counterexample: with known domain "client", `filterConsulServices`
keeps the service whose ID is "_nomad-clientX", although that ID does not
have the prefix "_nomad-client-" claimed by the spec — the source omits the
trailing hyphen from the filter's prefix. -/
theorem C3_cex :
    filterConsulServices ["client"] [ghostSvc] = [ghostSvc] ∧
    hasPfx ghostSvc.id (nomadServicePrefix ++ "-" ++ "client" ++ "-") = false := by
  constructor
  · rfl
  · rfl

/-- C3 (amended): an agent service is kept by the ownership filter iff its
ID has the prefix "_nomad-" ++ domain — without a trailing hyphen — for
some domain of the desired-state registry, and an agent check is kept iff
its owning service ID passes the same test over the check registry's
domains. -/
theorem C3_filter_characterisation :
    (∀ (domains : List String) (services : List AgentService) (s : AgentService),
      s ∈ filterConsulServices domains services ↔
        s ∈ services ∧ ∃ d ∈ domains, hasPfx s.id (nomadServicePrefix ++ "-" ++ d) = true) ∧
    (∀ (domains : List String) (checks : List AgentCheck) (c : AgentCheck),
      c ∈ filterConsulChecks domains checks ↔
        c ∈ checks ∧ ∃ d ∈ domains, hasPfx c.serviceID (nomadServicePrefix ++ "-" ++ d) = true) := by
  constructor
  · intro domains services s
    simp [filterConsulServices, List.mem_filter, List.any_eq_true]
  · intro domains checks c
    simp [filterConsulChecks, List.mem_filter, List.any_eq_true]

/-! C6 — service comparison: tag sets, not multisets. -/

/-- C6 counterexample: the claim says the tag lists ["a", "a"] and ["a"]
compare unequal (duplicates counted); in the source the local tag map
collapses duplicates, so with all scalar fields agreeing the comparison
returns true. -/
theorem C6_cex : compareConsulService dupTagReg dupTagAgentSvc = true := rfl

/-! C6 (amended machinery) — the tag comparison is set equality. -/

theorem alLookup_buildTagMap (tags : List String) (t : String) :
    alLookup t (buildTagMap tags) = if t ∈ tags then some 'l' else none := by
  have hgen : ∀ (l : List String) (m : List (String × Char)),
      alLookup t (l.foldl (fun m t' => alUpdate t' 'l' m) m) =
        if t ∈ l then some 'l' else alLookup t m := by
    intro l
    induction l with
    | nil =>
      intro m
      simp
    | cons hd tl ih =>
      intro m
      rw [List.foldl_cons, ih]
      by_cases hm : t ∈ tl
      · rw [if_pos hm, if_pos (List.mem_cons_of_mem _ hm)]
      · rw [if_neg hm, alLookup_alUpdate]
        by_cases hh : hd = t
        · rw [if_pos hh, if_pos (by rw [← hh]; exact List.mem_cons_self _ _)]
        · rw [if_neg hh, if_neg (by
            rw [List.mem_cons]
            push_neg
            exact ⟨fun he => hh he.symm, hm⟩)]
  exact hgen tags []

theorem keys_alUpdate_of_isSome {α : Type} (k : String) (v : α) (m : List (String × α))
    (h : (alLookup k m).isSome = true) :
    (alUpdate k v m).map Prod.fst = m.map Prod.fst := by
  induction m with
  | nil => simp [alLookup] at h
  | cons hd tl ih =>
    obtain ⟨kh, vh⟩ := hd
    by_cases hk : kh = k
    · subst hk
      rw [alUpdate_cons_self]
      rfl
    · rw [alLookup_cons_ne _ _ hk] at h
      rw [alUpdate_cons_ne _ _ _ hk, List.map_cons, List.map_cons, ih h]

theorem nodup_keys_buildTagMap (tags : List String) :
    ((buildTagMap tags).map Prod.fst).Nodup := by
  have hgen : ∀ (l : List String) (m : List (String × Char)), (m.map Prod.fst).Nodup →
      ((l.foldl (fun m t' => alUpdate t' 'l' m) m).map Prod.fst).Nodup := by
    intro l
    induction l with
    | nil =>
      intro m h
      exact h
    | cons hd tl ih =>
      intro m h
      rw [List.foldl_cons]
      exact ih _ (nodup_keys_alUpdate _ _ _ h)
  exact hgen tags [] (by simp)

theorem markConsulTags_none_iff (ts : List String) : ∀ (m : List (String × Char)),
    markConsulTags m ts = none ↔ ∃ t ∈ ts, alLookup t m = none := by
  induction ts with
  | nil =>
    intro m
    simp [markConsulTags]
  | cons t0 ts' ih =>
    intro m
    cases hl : alLookup t0 m with
    | none =>
      simp only [markConsulTags, hl]
      constructor
      · intro _
        exact ⟨t0, List.mem_cons_self _ _, hl⟩
      · intro _
        trivial
    | some c =>
      simp only [markConsulTags, hl]
      rw [ih]
      constructor
      · rintro ⟨t, ht, hnone⟩
        rw [alLookup_alUpdate] at hnone
        by_cases he : t0 = t
        · rw [if_pos he] at hnone
          exact absurd hnone (by simp)
        · rw [if_neg he] at hnone
          exact ⟨t, List.mem_cons_of_mem _ ht, hnone⟩
      · rintro ⟨t, ht, hnone⟩
        rcases List.mem_cons.mp ht with he | he
        · subst he
          rw [hnone] at hl
          exact absurd hl (by simp)
        · refine ⟨t, he, ?_⟩
          rw [alLookup_alUpdate]
          by_cases h0 : t0 = t
          · subst h0
            rw [hnone] at hl
            exact absurd hl (by simp)
          · rw [if_neg h0]
            exact hnone

theorem markConsulTags_keys (ts : List String) : ∀ (m m' : List (String × Char)),
    markConsulTags m ts = some m' → m'.map Prod.fst = m.map Prod.fst := by
  induction ts with
  | nil =>
    intro m m' h
    simp only [markConsulTags, Option.some.injEq] at h
    rw [← h]
  | cons t0 ts' ih =>
    intro m m' h
    cases hl : alLookup t0 m with
    | none =>
      simp only [markConsulTags, hl] at h
      exact Option.noConfusion h
    | some c =>
      simp only [markConsulTags, hl] at h
      rw [ih _ _ h, keys_alUpdate_of_isSome _ _ _ (by rw [hl]; rfl)]

theorem markConsulTags_lookup (ts : List String) : ∀ (m m' : List (String × Char)),
    markConsulTags m ts = some m' → ∀ t : String,
    alLookup t m' =
      if t ∈ ts ∧ (alLookup t m).isSome = true then some 'b' else alLookup t m := by
  induction ts with
  | nil =>
    intro m m' h t
    simp only [markConsulTags, Option.some.injEq] at h
    rw [← h]
    simp
  | cons t0 ts' ih =>
    intro m m' h t
    cases hl : alLookup t0 m with
    | none =>
      simp only [markConsulTags, hl] at h
      exact Option.noConfusion h
    | some c =>
      simp only [markConsulTags, hl] at h
      have ihh := ih _ _ h t
      rw [alLookup_alUpdate] at ihh
      by_cases h0 : t0 = t
      · subst h0
        simp at ihh
        rw [ihh, if_pos ⟨List.mem_cons_self _ _, by rw [hl]; rfl⟩]
      · rw [if_neg h0] at ihh
        rw [ihh]
        have hcond : (t ∈ ts' ∧ (alLookup t m).isSome = true) ↔
            (t ∈ t0 :: ts' ∧ (alLookup t m).isSome = true) := by
          rw [List.mem_cons]
          constructor
          · rintro ⟨hc, hs⟩
            exact ⟨Or.inr hc, hs⟩
          · rintro ⟨hc | hc, hs⟩
            · exact absurd hc.symm h0
            · exact ⟨hc, hs⟩
        rw [if_congr hcond rfl rfl]

theorem compareTags_iff (lt ct : List String) :
    compareTags lt ct = true ↔ ((∀ t ∈ lt, t ∈ ct) ∧ (∀ t ∈ ct, t ∈ lt)) := by
  rcases hm : markConsulTags (buildTagMap lt) ct with _ | m'
  · unfold compareTags
    rw [hm]
    obtain ⟨t, htc, hnone⟩ := (markConsulTags_none_iff _ _).mp hm
    rw [alLookup_buildTagMap] at hnone
    have htl : t ∉ lt := by
      by_contra hc
      rw [if_pos hc] at hnone
      exact absurd hnone (by simp)
    constructor
    · intro h
      exact absurd h (by simp)
    · rintro ⟨_, hb⟩
      exact absurd (hb t htc) htl
  · unfold compareTags
    rw [hm]
    have hkeys := markConsulTags_keys ct _ _ hm
    have hnodup : (m'.map Prod.fst).Nodup := by
      rw [hkeys]
      exact nodup_keys_buildTagMap lt
    have hlk := markConsulTags_lookup ct _ _ hm
    have hforward : ∀ t ∈ ct, t ∈ lt := by
      intro t htc
      by_contra hnotin
      have hlt : alLookup t (buildTagMap lt) = none := by
        rw [alLookup_buildTagMap, if_neg hnotin]
      have hcontra : markConsulTags (buildTagMap lt) ct = none :=
        (markConsulTags_none_iff _ _).mpr ⟨t, htc, hlt⟩
      rw [hm] at hcontra
      exact absurd hcontra (by simp)
    constructor
    · intro hall
      refine ⟨?_, hforward⟩
      intro t htl
      by_contra htc
      have hlv : alLookup t m' = some 'l' := by
        rw [hlk t, if_neg (by rintro ⟨hc, _⟩; exact htc hc), alLookup_buildTagMap, if_pos htl]
      have hmem := mem_of_alLookup hlv
      have hfalse := List.all_eq_true.mp hall _ hmem
      simp at hfalse
    · rintro ⟨hlc, _⟩
      apply List.all_eq_true.mpr
      rintro ⟨k, v⟩ hmem
      have hlkv := alLookup_of_mem hnodup hmem
      rw [hlk k] at hlkv
      by_cases hc : k ∈ ct ∧ (alLookup k (buildTagMap lt)).isSome = true
      · rw [if_pos hc] at hlkv
        injection hlkv with hv
        simp [← hv]
      · rw [if_neg hc] at hlkv
        rw [alLookup_buildTagMap] at hlkv
        by_cases hkl : k ∈ lt
        · exfalso
          apply hc
          refine ⟨hlc k hkl, ?_⟩
          rw [alLookup_buildTagMap, if_pos hkl]
          rfl
        · rw [if_neg hkl] at hlkv
          exact absurd hlkv (by simp)

/-- C6 (amended): compareConsulService returns true iff ID, display name,
port, address and EnableTagOverride agree and the tag sets are equal:
membership-based and order-insensitive, but with duplicates collapsed —
so ["a","a"] vs ["a"] compare equal (see the counterexample), while lists
differing only in order also compare equal. -/
theorem C6_compare_set_semantics (l : AgentServiceRegistration) (c : AgentService) :
    compareConsulService l c = true ↔
      (c.id = l.id ∧ c.service = l.name ∧ c.port = l.port ∧ c.address = l.address ∧
       c.enableTagOverride = l.enableTagOverride ∧
       (∀ t ∈ l.tags, t ∈ c.tags) ∧ (∀ t ∈ c.tags, t ∈ l.tags)) := by
  unfold compareConsulService
  split
  · rename_i hcond
    constructor
    · intro h
      exact absurd h (by simp)
    · rintro ⟨h1, h2, h3, h4, h5, _, _⟩
      rcases hcond with hc | hc | hc | hc | hc
      · exact absurd h1 hc
      · exact absurd h2 hc
      · exact absurd h3 hc
      · exact absurd h4 hc
      · exact absurd h5 hc
  · rename_i hcond
    push_neg at hcond
    obtain ⟨h1, h2, h3, h4, h5⟩ := hcond
    rw [compareTags_iff]
    constructor
    · rintro ⟨ha, hb⟩
      exact ⟨h1, h2, h3, h4, h5, ha, hb⟩
    · rintro ⟨_, _, _, _, _, ha, hb⟩
      exact ⟨ha, hb⟩

/-! C9 — a failing periodic handler aborts the sync. -/

/-- C9 counterexample: with one failing handler, `SyncServices` issues no
agent calls at all even though a missing service is pending (the same state
with no handler error does issue calls); the handler error is returned and
the service/check phases are skipped, against the claim that they still
run. -/
theorem C9_cex :
    (SyncServicesModel webSt [some "boom"] [] []
        (fun _ => false) (fun _ => false) (fun _ => false) (fun _ => false)).calls = [] ∧
    (SyncServicesModel webSt [some "boom"] [] []
        (fun _ => false) (fun _ => false) (fun _ => false) (fun _ => false)).errors = ["boom"] ∧
    (SyncServicesModel webSt [] [] []
        (fun _ => false) (fun _ => false) (fun _ => false) (fun _ => false)).calls ≠ [] := by
  refine ⟨rfl, rfl, ?_⟩
  decide

/-- C9 (amended): `RunHandlers` runs every handler and aggregates all their
errors into one multi-error, but when that aggregate is non-empty
`SyncServices` returns it immediately: the state is untouched, no agent
call is issued, and the service-sync and check-sync phases are skipped. -/
theorem C9_handler_error_aborts (st : Syncer) (handlers : List (Option String))
    (consulS : List AgentService) (consulC : List AgentCheck)
    (e1 e2 e3 e4 : String → Bool)
    (h : runHandlers handlers ≠ []) :
    SyncServicesModel st handlers consulS consulC e1 e2 e3 e4 =
      ⟨st, [], runHandlers handlers⟩ := by
  simp [SyncServicesModel, h]

/-- C9 witness: the amended theorem applied at a concrete failing handler. -/
theorem C9_handler_error_aborts_witness :
    runHandlers [some "boom"] ≠ [] ∧
    (SyncServicesModel webSt [some "boom"] [] []
        (fun _ => false) (fun _ => false) (fun _ => false) (fun _ => false)).errors = ["boom"] := by
  refine ⟨by decide, ?_⟩
  rw [C9_handler_error_aborts webSt [some "boom"] [] []
    (fun _ => false) (fun _ => false) (fun _ => false) (fun _ => false) (by decide)]
  rfl

/-! C4 — tracked state is updated whether or not the agent call failed. -/

/-- C4 counterexample: with a missing service whose ServiceRegister call
fails, the tracked-services map still acquires the entry (it was absent
before the sync), against the claim that a failing agent call leaves the
tracked entry unchanged. -/
theorem C4_cex :
    (syncServicesModel webSt [] (fun _ => true) (fun _ => true)).errors ≠ [] ∧
    alLookup "_nomad-client-web"
        (syncServicesModel webSt [] (fun _ => true) (fun _ => true)).st.trackedServices =
      some webReg ∧
    alLookup "_nomad-client-web" webSt.trackedServices = none := by
  refine ⟨by decide, by decide, rfl⟩

/-! Lemmas on mergeGroup and the SetServices construction fold. -/

theorem mergeGroup_cons {α : Type} (g : List (String × List (String × α))) (d : String)
    (kv : String × α) (rest : List (String × α)) :
    mergeGroup g d (kv :: rest) =
      mergeGroup (alUpdate d (alUpdate kv.1 kv.2 ((alLookup d g).getD [])) g) d rest := rfl

theorem mergeGroup_lookup_other {α : Type} (g : List (String × List (String × α)))
    (d d' : String) (entries : List (String × α)) (h : d' ≠ d) :
    alLookup d' (mergeGroup g d entries) = alLookup d' g := by
  induction entries generalizing g with
  | nil => rfl
  | cons kv rest ih =>
    rw [mergeGroup_cons, ih, alLookup_alUpdate, if_neg (Ne.symm h)]

theorem mergeGroup_lookup_getD {α : Type} (g : List (String × List (String × α)))
    (d : String) (entries : List (String × α)) :
    (alLookup d (mergeGroup g d entries)).getD [] =
      entries.foldl (fun inn kv => alUpdate kv.1 kv.2 inn) ((alLookup d g).getD []) := by
  induction entries generalizing g with
  | nil => rfl
  | cons kv rest ih =>
    rw [mergeGroup_cons, ih, List.foldl_cons]
    congr 1
    simp [alLookup_alUpdate]

theorem foldl_alUpdate_lookup_not_mem {α : Type} (entries : List (String × α))
    (inn : List (String × α)) (k : String) (h : k ∉ entries.map Prod.fst) :
    alLookup k (entries.foldl (fun inn kv => alUpdate kv.1 kv.2 inn) inn) = alLookup k inn := by
  induction entries generalizing inn with
  | nil => rfl
  | cons kv rest ih =>
    rw [List.map_cons, List.mem_cons] at h
    push_neg at h
    rw [List.foldl_cons, ih _ h.2, alLookup_alUpdate, if_neg (Ne.symm h.1)]

theorem processCheck_regServices (delegates : List String) (reg : AgentServiceRegistration)
    (skey : String) (acc : SSAcc) (chk : ServiceCheck) :
    (processCheck delegates reg skey acc chk).regServices = acc.regServices := by
  unfold processCheck
  split
  · rfl
  · split
    · split
      · rfl
      · rfl
    · rfl

theorem processCheck_regChecks_other (delegates : List String) (reg : AgentServiceRegistration)
    (skey : String) (acc : SSAcc) (chk : ServiceCheck) (k : String) (h : k ≠ skey) :
    alLookup k (processCheck delegates reg skey acc chk).regChecks = alLookup k acc.regChecks := by
  unfold processCheck
  split
  · rfl
  · split
    · split
      · rfl
      · dsimp only
        rw [alLookup_alUpdate, if_neg (Ne.symm h)]
    · dsimp only
      rw [alLookup_alUpdate, if_neg (Ne.symm h)]

theorem checksFold_regServices (checks : List ServiceCheck) (delegates : List String)
    (reg : AgentServiceRegistration) (skey : String) (acc : SSAcc) :
    (checks.foldl (processCheck delegates reg skey) acc).regServices = acc.regServices := by
  induction checks generalizing acc with
  | nil => rfl
  | cons c rest ih => rw [List.foldl_cons, ih, processCheck_regServices]

theorem checksFold_regChecks_other (checks : List ServiceCheck) (delegates : List String)
    (reg : AgentServiceRegistration) (skey : String) (acc : SSAcc) (k : String) (h : k ≠ skey) :
    alLookup k (checks.foldl (processCheck delegates reg skey) acc).regChecks =
      alLookup k acc.regChecks := by
  induction checks generalizing acc with
  | nil => rfl
  | cons c rest ih =>
    rw [List.foldl_cons, ih, processCheck_regChecks_other _ _ _ _ _ _ h]

theorem servicesFold_lookup_not_mem (services : List (String × Service))
    (dl : List String) (af : String → String × Int) (dom : String) (acc : SSAcc) (k : String)
    (h : k ∉ services.map Prod.fst) :
    alLookup k (services.foldl (processService dl af dom) acc).regServices =
      alLookup k acc.regServices ∧
    alLookup k (services.foldl (processService dl af dom) acc).regChecks =
      alLookup k acc.regChecks := by
  induction services generalizing acc with
  | nil => exact ⟨rfl, rfl⟩
  | cons kv rest ih =>
    rw [List.map_cons, List.mem_cons] at h
    push_neg at h
    rw [List.foldl_cons]
    have hrest := ih (processService dl af dom acc kv) h.2
    refine ⟨?_, ?_⟩
    · rw [hrest.1]
      unfold processService
      rw [checksFold_regServices]
      dsimp only
      rw [alLookup_alUpdate, if_neg (Ne.symm h.1)]
    · rw [hrest.2]
      unfold processService
      rw [checksFold_regChecks_other _ _ _ _ _ _ h.1]

/-! C1 — SetServices merges, it does not replace. -/

/-- C1 counterexample: register svcWeb under domain client, then call
SetServices("client", {}) — the claim says the key web must be removed from
the domain's group; in fact the write-back loop only upserts the keys of
the new map, so the empty map removes nothing and web is still present
(with its full registration) after the call. -/
theorem C1_cex :
    (setServices webSt "client" []).2 = [] ∧
    alLookup "web"
        ((alLookup "client" (setServices webSt "client" []).1.servicesGroups).getD []) =
      some webReg := by
  exact ⟨rfl, by decide⟩

/-- C1 (amended): a successful SetServices(d, m) merges the derived
registrations into servicesGroups[d] and checkGroups[d] key by key: every
key of domain d absent from m keeps its previous value in both groups, and
every other domain is untouched; in particular SetServices(d, {}) followed
by a sync removes nothing. -/
theorem C1_merge_not_replace (st : Syncer) (d : String) (m : List (String × Service))
    (hok : (setServices st d m).2 = []) :
    (∀ k, k ∉ m.map Prod.fst →
      alLookup k ((alLookup d (setServices st d m).1.servicesGroups).getD []) =
        alLookup k ((alLookup d st.servicesGroups).getD []) ∧
      alLookup k ((alLookup d (setServices st d m).1.checkGroups).getD []) =
        alLookup k ((alLookup d st.checkGroups).getD [])) ∧
    (∀ d', d' ≠ d →
      alLookup d' (setServices st d m).1.servicesGroups = alLookup d' st.servicesGroups ∧
      alLookup d' (setServices st d m).1.checkGroups = alLookup d' st.checkGroups) := by
  by_cases hc : (m.foldl (processService st.delegateChecks st.addrFinder d)
      ⟨[], [], st.checkRunners, []⟩ : SSAcc).errors = []
  · constructor
    · intro k hk
      have hreg := servicesFold_lookup_not_mem m st.delegateChecks st.addrFinder d
        ⟨[], [], st.checkRunners, []⟩ k hk
      have hkeyS : k ∉ ((m.foldl (processService st.delegateChecks st.addrFinder d)
          ⟨[], [], st.checkRunners, []⟩ : SSAcc).regServices.map Prod.fst) :=
        (alLookup_eq_none_iff _ _).mp (hreg.1.trans rfl)
      have hkeyC : k ∉ ((m.foldl (processService st.delegateChecks st.addrFinder d)
          ⟨[], [], st.checkRunners, []⟩ : SSAcc).regChecks.map Prod.fst) :=
        (alLookup_eq_none_iff _ _).mp (hreg.2.trans rfl)
      constructor
      · simp only [setServices, hc, if_pos]
        rw [mergeGroup_lookup_getD, foldl_alUpdate_lookup_not_mem _ _ _ hkeyS]
      · simp only [setServices, hc, if_pos]
        rw [mergeGroup_lookup_getD, foldl_alUpdate_lookup_not_mem _ _ _ hkeyC]
    · intro d' hd
      constructor
      · simp only [setServices, hc, if_pos]
        rw [mergeGroup_lookup_other _ _ _ _ hd]
      · simp only [setServices, hc, if_pos]
        rw [mergeGroup_lookup_other _ _ _ _ hd]
  · exfalso
    apply hc
    simp [setServices, hc] at hok

/-- C1 witness: the amended theorem applied to SetServices("client", {})
after svcWeb was registered: the key web is preserved. -/
theorem C1_merge_not_replace_witness :
    (setServices webSt "client" []).2 = [] ∧
    alLookup "web"
        ((alLookup "client" (setServices webSt "client" []).1.servicesGroups).getD []) =
      alLookup "web" ((alLookup "client" webSt.servicesGroups).getD []) :=
  ⟨rfl, ((C1_merge_not_replace webSt "client" [] rfl).1 "web" (by decide)).1⟩

/-! C4 (amended machinery) — the tracked maps do not depend on which agent
calls failed. -/

theorem svcMissing_fold_st (l : List AgentServiceRegistration) (e e' : String → Bool)
    (r r' : SyncRes) (h : r.st = r'.st) :
    (l.foldl (svcMissingStep e) r).st = (l.foldl (svcMissingStep e') r').st := by
  induction l generalizing r r' with
  | nil => exact h
  | cons s rest ih =>
    rw [List.foldl_cons, List.foldl_cons]
    apply ih
    show ({ r.st with trackedServices := alUpdate s.id s r.st.trackedServices } : Syncer) =
      { r'.st with trackedServices := alUpdate s.id s r'.st.trackedServices }
    rw [h]

theorem svcChanged_fold_st (l : List AgentServiceRegistration) (e : String → Bool)
    (r : SyncRes) : (l.foldl (svcChangedStep e) r).st = r.st := by
  induction l generalizing r with
  | nil => rfl
  | cons s rest ih =>
    rw [List.foldl_cons, ih]
    rfl

theorem svcStale_fold_st (l : List AgentServiceRegistration) (e e' : String → Bool)
    (r r' : SyncRes) (h : r.st = r'.st) :
    (l.foldl (svcStaleStep e) r).st = (l.foldl (svcStaleStep e') r').st := by
  induction l generalizing r r' with
  | nil => exact h
  | cons s rest ih =>
    rw [List.foldl_cons, List.foldl_cons]
    apply ih
    show ({ r.st with trackedServices := alDelete s.id r.st.trackedServices } : Syncer) =
      { r'.st with trackedServices := alDelete s.id r'.st.trackedServices }
    rw [h]

theorem chkMissing_fold_tracked (l : List AgentCheckRegistration) (e e' : String → Bool)
    (r r' : SyncRes) (h : r.st.trackedChecks = r'.st.trackedChecks) :
    (l.foldl (chkMissingStep e) r).st.trackedChecks =
      (l.foldl (chkMissingStep e') r').st.trackedChecks := by
  induction l generalizing r r' with
  | nil => exact h
  | cons c rest ih =>
    rw [List.foldl_cons, List.foldl_cons]
    apply ih
    show alUpdate c.id c r.st.trackedChecks = alUpdate c.id c r'.st.trackedChecks
    rw [h]

theorem chkChanged_fold_st (l : List AgentCheckRegistration) (e : String → Bool)
    (r : SyncRes) : (l.foldl (chkChangedStep e) r).st = r.st := by
  induction l generalizing r with
  | nil => rfl
  | cons c rest ih =>
    rw [List.foldl_cons, ih]
    rfl

theorem chkStale_fold_tracked (l : List AgentCheckRegistration) (e e' : String → Bool)
    (r r' : SyncRes) (h : r.st.trackedChecks = r'.st.trackedChecks) :
    (l.foldl (chkStaleStep e) r).st.trackedChecks =
      (l.foldl (chkStaleStep e') r').st.trackedChecks := by
  induction l generalizing r r' with
  | nil => exact h
  | cons c rest ih =>
    rw [List.foldl_cons, List.foldl_cons]
    apply ih
    show alDelete c.id r.st.trackedChecks = alDelete c.id r'.st.trackedChecks
    rw [h]

/-- C4 (amended): the tracked maps are written right after each agent call
whether or not the call failed — missing entries are inserted and stale
entries deleted unconditionally (only the runner-table cleanup of
deregisterCheck is conditional on success) — so the tracked maps after a
sync do not depend on which agent calls failed. -/
theorem C4_tracked_independent_of_errors :
    (∀ (st : Syncer) (consul : List AgentService) (e1 e2 e1' e2' : String → Bool),
      (syncServicesModel st consul e1 e2).st.trackedServices =
        (syncServicesModel st consul e1' e2').st.trackedServices) ∧
    (∀ (st : Syncer) (consul : List AgentCheck) (f1 f2 f1' f2' : String → Bool),
      (syncChecksModel st consul f1 f2).st.trackedChecks =
        (syncChecksModel st consul f1' f2').st.trackedChecks) := by
  constructor
  · intro st consul e1 e2 e1' e2'
    unfold syncServicesModel
    apply congrArg Syncer.trackedServices
    apply svcStale_fold_st
    rw [svcChanged_fold_st, svcChanged_fold_st]
    exact svcMissing_fold_st _ e1 e1' _ _ rfl
  · intro st consul f1 f2 f1' f2'
    unfold syncChecksModel
    apply chkStale_fold_tracked
    rw [show ∀ (l : List AgentCheckRegistration) (e : String → Bool) (r : SyncRes),
        (l.foldl (chkChangedStep e) r).st.trackedChecks = r.st.trackedChecks from
      fun l e r => by rw [chkChanged_fold_st],
      show ∀ (l : List AgentCheckRegistration) (e : String → Bool) (r : SyncRes),
        (l.foldl (chkChangedStep e) r).st.trackedChecks = r.st.trackedChecks from
      fun l e r => by rw [chkChanged_fold_st]]
    exact chkMissing_fold_tracked _ f1 f1' _ _ rfl

/-! C5 — construction errors abort the whole desired-state write. -/

/-- C5 counterexample: a services map with one good entry and one entry
whose check type is unknown: `SetServices` returns the aggregated error but
applies nothing — the good entry is absent from the desired state, against
the claim that successfully constructed items are still applied. -/
theorem C5_cex :
    (setServices (newSyncer afFix []) "client" mGoodBad).2 ≠ [] ∧
    alLookup "client" (setServices (newSyncer afFix []) "client" mGoodBad).1.servicesGroups = none := by
  refine ⟨by decide, by decide⟩

/-- C5 (amended): when SetServices encounters construction errors it
returns all of them aggregated as one multi-error and applies none of the
desired state: servicesGroups, checkGroups, the tracked maps and the sync
channel are exactly as before the call (only delegated-check runners
created before the failure remain in the runner table). -/
theorem C5_error_aborts_write (st : Syncer) (d : String) (m : List (String × Service))
    (h : (setServices st d m).2 ≠ []) :
    (setServices st d m).1.servicesGroups = st.servicesGroups ∧
    (setServices st d m).1.checkGroups = st.checkGroups ∧
    (setServices st d m).1.trackedServices = st.trackedServices ∧
    (setServices st d m).1.trackedChecks = st.trackedChecks ∧
    (setServices st d m).1.notifySyncCh = st.notifySyncCh := by
  by_cases hc : (m.foldl (processService st.delegateChecks st.addrFinder d)
      ⟨[], [], st.checkRunners, []⟩ : SSAcc).errors = []
  · exfalso
    apply h
    simp [setServices, hc]
  · simp only [setServices, hc, if_neg]
    exact ⟨rfl, rfl, rfl, rfl, rfl⟩

/-- C5 witness: the amended theorem applied to the good-plus-bad services
map on a fresh engine. -/
theorem C5_error_aborts_write_witness :
    (setServices (newSyncer afFix []) "client" mGoodBad).2 ≠ [] ∧
    (setServices (newSyncer afFix []) "client" mGoodBad).1.servicesGroups =
      (newSyncer afFix []).servicesGroups :=
  ⟨by decide, (C5_error_aborts_write (newSyncer afFix []) "client" mGoodBad (by decide)).1⟩

/-! C10 — the service-key scheme collides on hyphens. -/

/-- C10 counterexample: the services (name "a-b", no tags) and (name "a",
tags ["b"]) have different (name, tag list) pairs but identical service
keys and hence identical Consul service IDs in any domain. -/
theorem C10_cex :
    (svcKeyA.name, svcKeyA.tags) ≠ (svcKeyB.name, svcKeyB.tags) ∧
    GenerateServiceKey svcKeyA = GenerateServiceKey svcKeyB ∧
    generateConsulServiceID "client" (GenerateServiceKey svcKeyA) =
      generateConsulServiceID "client" (GenerateServiceKey svcKeyB) := by
  exact ⟨by decide, rfl, rfl⟩

theorem strJoin_data (l : List String) (h : l ≠ []) :
    (strJoin "-" l).data = joinL (l.map String.data) := by
  induction l with
  | nil => exact absurd rfl h
  | cons s rest ih =>
    cases rest with
    | nil => rfl
    | cons y t =>
      show (s ++ "-" ++ strJoin "-" (y :: t)).data =
        joinL (s.data :: (y :: t).map String.data)
      rw [String.data_append, String.data_append, ih (by simp)]
      show s.data ++ ['-'] ++ joinL ((y :: t).map String.data) = _
      rw [List.append_assoc]
      rfl

theorem generateServiceKey_data (s : Service) :
    (GenerateServiceKey s).data = joinL ((s.name :: s.tags).map String.data) := by
  cases htags : s.tags with
  | nil => simp [GenerateServiceKey, htags, joinL]
  | cons t ts =>
    simp only [GenerateServiceKey, htags]
    rw [String.data_append, String.data_append, strJoin_data _ (by simp)]
    show s.name.data ++ ['-'] ++ joinL ((t :: ts).map String.data) = _
    rw [List.append_assoc, List.map_cons, List.map_cons]
    rfl

theorem splitDash : ∀ (a b u v : List Char), '-' ∉ a → '-' ∉ b →
    a ++ '-' :: u = b ++ '-' :: v → a = b ∧ u = v := by
  intro a
  induction a with
  | nil =>
    intro b u v ha hb h
    cases b with
    | nil => simpa using h
    | cons c b' =>
      rw [List.nil_append, List.cons_append] at h
      injection h with h1 h2
      exfalso
      apply hb
      rw [← h1]
      exact List.mem_cons_self _ _
  | cons c a' ih =>
    intro b u v ha hb h
    cases b with
    | nil =>
      rw [List.cons_append, List.nil_append] at h
      injection h with h1 h2
      exfalso
      apply ha
      rw [h1]
      exact List.mem_cons_self _ _
    | cons c' b' =>
      rw [List.cons_append, List.cons_append] at h
      injection h with h1 h2
      have ha' : '-' ∉ a' := fun hm => ha (List.mem_cons_of_mem _ hm)
      have hb' : '-' ∉ b' := fun hm => hb (List.mem_cons_of_mem _ hm)
      obtain ⟨he, hu⟩ := ih b' u v ha' hb' h2
      exact ⟨by rw [h1, he], hu⟩

theorem joinL_inj : ∀ (xs ys : List (List Char)), xs ≠ [] → ys ≠ [] →
    (∀ x ∈ xs, '-' ∉ x) → (∀ y ∈ ys, '-' ∉ y) → joinL xs = joinL ys → xs = ys := by
  intro xs
  induction xs with
  | nil =>
    intro ys hxne
    exact absurd rfl hxne
  | cons x xs' ih =>
    intro ys hxne hyne hx hy h
    cases ys with
    | nil => exact absurd rfl hyne
    | cons y ys' =>
      cases xs' with
      | nil =>
        cases ys' with
        | nil =>
          simp only [joinL] at h
          rw [h]
        | cons y2 yt =>
          simp only [joinL] at h
          exfalso
          apply hx x (List.mem_cons_self _ _)
          rw [h]
          exact List.mem_append_right _ (List.mem_cons_self _ _)
      | cons x2 xt =>
        cases ys' with
        | nil =>
          simp only [joinL] at h
          exfalso
          apply hy y (List.mem_cons_self _ _)
          rw [← h]
          exact List.mem_append_right _ (List.mem_cons_self _ _)
        | cons y2 yt =>
          simp only [joinL] at h
          have hx0 : '-' ∉ x := hx x (List.mem_cons_self _ _)
          have hy0 : '-' ∉ y := hy y (List.mem_cons_self _ _)
          obtain ⟨he, hj⟩ := splitDash x y _ _ hx0 hy0 h
          have hrec := ih (y2 :: yt) (by simp) (by simp)
            (fun z hz => hx z (List.mem_cons_of_mem _ hz))
            (fun z hz => hy z (List.mem_cons_of_mem _ hz)) hj
          rw [he, hrec]

theorem string_data_injective : Function.Injective String.data := by
  intro a b h
  cases a
  cases b
  rw [show ∀ (x y : List Char), String.mk x = String.mk y ↔ x = y from fun x y => by
    constructor
    · intro he
      injection he
    · intro he
      rw [he]]
  exact h

/-- C10 (amended): the key scheme is name / name-tag1-…-tagn as claimed,
but it is only collision-free on names and tags that contain no hyphen:
under that restriction two services with different (name, tag list) pairs
get different service keys and different Consul service IDs in every
domain (the counterexample shows hyphens in names defeat the claim). -/
theorem C10_keys_injective (s1 s2 : Service)
    (h1n : '-' ∉ s1.name.data) (h1t : ∀ t ∈ s1.tags, '-' ∉ t.data)
    (h2n : '-' ∉ s2.name.data) (h2t : ∀ t ∈ s2.tags, '-' ∉ t.data)
    (hne : (s1.name, s1.tags) ≠ (s2.name, s2.tags)) :
    GenerateServiceKey s1 ≠ GenerateServiceKey s2 ∧
    ∀ d, generateConsulServiceID d (GenerateServiceKey s1) ≠
      generateConsulServiceID d (GenerateServiceKey s2) := by
  have hmapinj : ∀ (xs ys : List String), xs.map String.data = ys.map String.data → xs = ys := by
    intro xs
    induction xs with
    | nil =>
      intro ys h
      cases ys with
      | nil => rfl
      | cons y yt => simp at h
    | cons x xt ih =>
      intro ys h
      cases ys with
      | nil => simp at h
      | cons y yt =>
        rw [List.map_cons, List.map_cons] at h
        injection h with h1 h2
        rw [string_data_injective h1, ih yt h2]
  have hkey : GenerateServiceKey s1 ≠ GenerateServiceKey s2 := by
    intro he
    apply hne
    have hdata : joinL ((s1.name :: s1.tags).map String.data) =
        joinL ((s2.name :: s2.tags).map String.data) := by
      rw [← generateServiceKey_data, ← generateServiceKey_data, he]
    have hx : ∀ x ∈ (s1.name :: s1.tags).map String.data, '-' ∉ x := by
      intro x hxm
      rcases List.mem_map.mp hxm with ⟨s, hs, hxeq⟩
      rw [← hxeq]
      rcases List.mem_cons.mp hs with hh | hh
      · rw [hh]
        exact h1n
      · exact h1t s hh
    have hy : ∀ x ∈ (s2.name :: s2.tags).map String.data, '-' ∉ x := by
      intro x hxm
      rcases List.mem_map.mp hxm with ⟨s, hs, hxeq⟩
      rw [← hxeq]
      rcases List.mem_cons.mp hs with hh | hh
      · rw [hh]
        exact h2n
      · exact h2t s hh
    have hlists := joinL_inj _ _ (by simp) (by simp) hx hy hdata
    have hcons := hmapinj _ _ hlists
    injection hcons with hname htags
    rw [Prod.mk.injEq]
    exact ⟨hname, htags⟩
  refine ⟨hkey, ?_⟩
  intro d he
  apply hkey
  apply string_data_injective
  have hd := congrArg String.data he
  unfold generateConsulServiceID at hd
  rw [String.data_append, String.data_append] at hd
  exact List.append_cancel_left hd

/-! C7 (machinery) — the runner table produced by SetServices. -/

theorem createService_id (af : String → String × Int) (s : Service) (dom k : String) :
    (createService af s dom k).id = generateConsulServiceID dom k := rfl

theorem createCheckReg_ok_id (chk : ServiceCheck) (reg : AgentServiceRegistration)
    (r : AgentCheckRegistration) (h : createCheckReg chk reg = Except.ok r) :
    r.id = checkHash chk reg.id := by
  unfold createCheckReg at h
  split at h
  · injection h with hr
    rw [← hr]
  · split at h
    · injection h with hr
      rw [← hr]
    · split at h
      · injection h with hr
        rw [← hr]
      · exact Except.noConfusion h

theorem createCheckReg_isOk_iff (chk : ServiceCheck) (reg : AgentServiceRegistration) :
    (∃ r, createCheckReg chk reg = Except.ok r) ↔
      (chk.type = ServiceCheckHTTP ∨ chk.type = ServiceCheckTCP ∨
        chk.type = ServiceCheckScript) := by
  simp only [createCheckReg]
  by_cases h1 : chk.type = ServiceCheckHTTP
  · rw [if_pos h1]
    exact ⟨fun _ => Or.inl h1, fun _ => ⟨_, rfl⟩⟩
  · rw [if_neg h1]
    by_cases h2 : chk.type = ServiceCheckTCP
    · rw [if_pos h2]
      exact ⟨fun _ => Or.inr (Or.inl h2), fun _ => ⟨_, rfl⟩⟩
    · rw [if_neg h2]
      by_cases h3 : chk.type = ServiceCheckScript
      · rw [if_pos h3]
        exact ⟨fun _ => Or.inr (Or.inr h3), fun _ => ⟨_, rfl⟩⟩
      · rw [if_neg h3]
        constructor
        · rintro ⟨r, hr⟩
          exact Except.noConfusion hr
        · rintro (h | h | h)
          · exact absurd h h1
          · exact absurd h h2
          · exact absurd h h3

theorem processCheck_runners_mem (delegates : List String) (reg : AgentServiceRegistration)
    (skey : String) (acc : SSAcc) (chk : ServiceCheck) (x : String) :
    x ∈ (processCheck delegates reg skey acc chk).runners ↔
      x ∈ acc.runners ∨
        ((∃ r, createCheckReg chk reg = Except.ok r) ∧
          delegates.contains chk.type = true ∧ x = checkHash chk reg.id) := by
  rcases hcr : createCheckReg chk reg with e | r
  · simp only [processCheck, hcr]
    constructor
    · intro h
      exact Or.inl h
    · rintro (h | ⟨⟨r, hr⟩, _, _⟩)
      · exact h
      · exact Except.noConfusion hr
  · have hid : r.id = checkHash chk reg.id := createCheckReg_ok_id chk reg r hcr
    simp only [processCheck, hcr]
    by_cases hdel : delegates.contains chk.type = true
    · rw [if_pos hdel]
      by_cases hrun : acc.runners.contains r.id = true
      · rw [if_pos hrun]
        constructor
        · intro h
          exact Or.inl h
        · rintro (h | ⟨_, _, hx⟩)
          · exact h
          · rw [hx, ← hid]
            exact (by simpa using hrun : r.id ∈ acc.runners)
      · rw [if_neg hrun]
        dsimp only
        rw [List.mem_append]
        constructor
        · rintro (h | h)
          · exact Or.inl h
          · right
            rw [List.mem_singleton] at h
            exact ⟨⟨r, rfl⟩, hdel, by rw [h, hid]⟩
        · rintro (h | ⟨_, _, hx⟩)
          · exact Or.inl h
          · right
            rw [List.mem_singleton, hx, hid]
    · rw [if_neg hdel]
      dsimp only
      constructor
      · intro h
        exact Or.inl h
      · rintro (h | ⟨_, hd, _⟩)
        · exact h
        · exact absurd hd hdel

theorem checksFold_runners_mem (checks : List ServiceCheck) (delegates : List String)
    (reg : AgentServiceRegistration) (skey : String) (acc : SSAcc) (x : String) :
    x ∈ (checks.foldl (processCheck delegates reg skey) acc).runners ↔
      x ∈ acc.runners ∨ ∃ chk ∈ checks, (∃ r, createCheckReg chk reg = Except.ok r) ∧
        delegates.contains chk.type = true ∧ x = checkHash chk reg.id := by
  induction checks generalizing acc with
  | nil => simp
  | cons c rest ih =>
    rw [List.foldl_cons, ih, processCheck_runners_mem]
    constructor
    · rintro ((h | hc) | ⟨chk, hmem, hrest⟩)
      · exact Or.inl h
      · exact Or.inr ⟨c, List.mem_cons_self _ _, hc⟩
      · exact Or.inr ⟨chk, List.mem_cons_of_mem _ hmem, hrest⟩
    · rintro (h | ⟨chk, hmem, hrest⟩)
      · exact Or.inl (Or.inl h)
      · rcases List.mem_cons.mp hmem with he | he
        · subst he
          exact Or.inl (Or.inr hrest)
        · exact Or.inr ⟨chk, he, hrest⟩

theorem processService_runners_mem (dl : List String) (af : String → String × Int)
    (dom : String) (acc : SSAcc) (kv : String × Service) (x : String) :
    x ∈ (processService dl af dom acc kv).runners ↔
      x ∈ acc.runners ∨ ∃ chk ∈ kv.2.checks,
        (∃ r, createCheckReg chk (createService af kv.2 dom kv.1) = Except.ok r) ∧
        dl.contains chk.type = true ∧
        x = checkHash chk (generateConsulServiceID dom kv.1) := by
  unfold processService
  rw [checksFold_runners_mem]
  rfl

theorem servicesFold_runners_mem (services : List (String × Service)) (dl : List String)
    (af : String → String × Int) (dom : String) (acc : SSAcc) (x : String) :
    x ∈ (services.foldl (processService dl af dom) acc).runners ↔
      x ∈ acc.runners ∨ ∃ kv ∈ services, ∃ chk ∈ kv.2.checks,
        (∃ r, createCheckReg chk (createService af kv.2 dom kv.1) = Except.ok r) ∧
        dl.contains chk.type = true ∧
        x = checkHash chk (generateConsulServiceID dom kv.1) := by
  induction services generalizing acc with
  | nil => simp
  | cons kv rest ih =>
    rw [List.foldl_cons, ih, processService_runners_mem]
    constructor
    · rintro ((h | hc) | ⟨kv', hmem, hrest⟩)
      · exact Or.inl h
      · exact Or.inr ⟨kv, List.mem_cons_self _ _, hc⟩
      · exact Or.inr ⟨kv', List.mem_cons_of_mem _ hmem, hrest⟩
    · rintro (h | ⟨kv', hmem, hrest⟩)
      · exact Or.inl (Or.inl h)
      · rcases List.mem_cons.mp hmem with he | he
        · subst he
          exact Or.inl (Or.inr hrest)
        · exact Or.inr ⟨kv', he, hrest⟩

theorem mem_foldl_append {α β : Type} (f : α → List β) (l : List α) (init : List β) (x : β) :
    x ∈ l.foldl (fun acc e => acc ++ f e) init ↔ x ∈ init ∨ ∃ e ∈ l, x ∈ f e := by
  induction l generalizing init with
  | nil => simp
  | cons e rest ih =>
    rw [List.foldl_cons, ih, List.mem_append]
    constructor
    · rintro ((h | h) | ⟨e', hmem, hx⟩)
      · exact Or.inl h
      · exact Or.inr ⟨e, List.mem_cons_self _ _, h⟩
      · exact Or.inr ⟨e', List.mem_cons_of_mem _ hmem, hx⟩
    · rintro (h | ⟨e', hmem, hx⟩)
      · exact Or.inl (Or.inl h)
      · rcases List.mem_cons.mp hmem with he | he
        · subst he
          exact Or.inl (Or.inr hx)
        · exact Or.inr ⟨e', he, hx⟩

theorem mem_delegatedCheckIDs (delegates : List String) (dom : String)
    (services : List (String × Service)) (x : String) :
    x ∈ delegatedCheckIDs delegates dom services ↔
      ∃ kv ∈ services, ∃ chk ∈ kv.2.checks,
        (chk.type = ServiceCheckHTTP ∨ chk.type = ServiceCheckTCP ∨
          chk.type = ServiceCheckScript) ∧
        delegates.contains chk.type = true ∧
        x = checkHash chk (generateConsulServiceID dom kv.1) := by
  unfold delegatedCheckIDs
  rw [mem_foldl_append]
  constructor
  · rintro (h | ⟨kv, hkv, hin⟩)
    · simp at h
    · rcases List.mem_filterMap.mp hin with ⟨chk, hchk, hsome⟩
      by_cases hc : (chk.type = ServiceCheckHTTP ∨ chk.type = ServiceCheckTCP ∨
          chk.type = ServiceCheckScript) ∧ delegates.contains chk.type = true
      · rw [if_pos hc] at hsome
        injection hsome with hx
        exact ⟨kv, hkv, chk, hchk, hc.1, hc.2, hx.symm⟩
      · rw [if_neg hc] at hsome
        exact Option.noConfusion hsome
  · rintro ⟨kv, hkv, chk, hchk, hty, hdel, hx⟩
    right
    refine ⟨kv, hkv, ?_⟩
    apply List.mem_filterMap.mpr
    refine ⟨chk, hchk, ?_⟩
    rw [if_pos ⟨hty, hdel⟩, hx]

theorem covered_after_append (skey : String) (r : AgentCheckRegistration)
    (rc : List (String × List AgentCheckRegistration)) (x : String)
    (h : ∃ k lst, alLookup k rc = some lst ∧ ∃ c ∈ lst, c.id = x) :
    ∃ k lst, alLookup k (alUpdate skey (((alLookup skey rc).getD []) ++ [r]) rc) = some lst ∧
      ∃ c ∈ lst, c.id = x := by
  obtain ⟨k, lst, hlk, c0, hc0, hcid⟩ := h
  by_cases hk : skey = k
  · subst hk
    refine ⟨skey, ((alLookup skey rc).getD []) ++ [r], ?_, c0, ?_, hcid⟩
    · rw [alLookup_alUpdate, if_pos rfl]
    · apply List.mem_append_left
      rw [hlk]
      exact hc0
  · refine ⟨k, lst, ?_, c0, hc0, hcid⟩
    rw [alLookup_alUpdate, if_neg hk]
    exact hlk

theorem processCheck_covered (delegates : List String) (reg : AgentServiceRegistration)
    (skey : String) (acc : SSAcc) (chk : ServiceCheck)
    (hcov : ∀ x ∈ acc.runners, ∃ k lst, alLookup k acc.regChecks = some lst ∧
      ∃ c ∈ lst, c.id = x) :
    ∀ x ∈ (processCheck delegates reg skey acc chk).runners,
      ∃ k lst, alLookup k (processCheck delegates reg skey acc chk).regChecks = some lst ∧
        ∃ c ∈ lst, c.id = x := by
  rcases hcr : createCheckReg chk reg with e | r
  · simp only [processCheck, hcr]
    exact hcov
  · simp only [processCheck, hcr]
    by_cases hdel : delegates.contains chk.type = true
    · rw [if_pos hdel]
      by_cases hrun : acc.runners.contains r.id = true
      · rw [if_pos hrun]
        exact hcov
      · rw [if_neg hrun]
        dsimp only
        intro x hx
        rw [List.mem_append] at hx
        rcases hx with hx | hx
        · exact covered_after_append skey r acc.regChecks x (hcov x hx)
        · rw [List.mem_singleton] at hx
          subst hx
          exact ⟨skey, ((alLookup skey acc.regChecks).getD []) ++ [r],
            by rw [alLookup_alUpdate, if_pos rfl], r,
            List.mem_append_right _ (List.mem_cons_self _ _), rfl⟩
    · rw [if_neg hdel]
      dsimp only
      intro x hx
      exact covered_after_append skey r acc.regChecks x (hcov x hx)

theorem checksFold_covered (checks : List ServiceCheck) (delegates : List String)
    (reg : AgentServiceRegistration) (skey : String) (acc : SSAcc)
    (hcov : ∀ x ∈ acc.runners, ∃ k lst, alLookup k acc.regChecks = some lst ∧
      ∃ c ∈ lst, c.id = x) :
    ∀ x ∈ (checks.foldl (processCheck delegates reg skey) acc).runners,
      ∃ k lst, alLookup k (checks.foldl (processCheck delegates reg skey) acc).regChecks =
        some lst ∧ ∃ c ∈ lst, c.id = x := by
  induction checks generalizing acc with
  | nil => exact hcov
  | cons c rest ih =>
    rw [List.foldl_cons]
    exact ih _ (processCheck_covered delegates reg skey acc c hcov)

theorem servicesFold_covered (services : List (String × Service)) (dl : List String)
    (af : String → String × Int) (dom : String) (acc : SSAcc)
    (hcov : ∀ x ∈ acc.runners, ∃ k lst, alLookup k acc.regChecks = some lst ∧
      ∃ c ∈ lst, c.id = x) :
    ∀ x ∈ (services.foldl (processService dl af dom) acc).runners,
      ∃ k lst, alLookup k (services.foldl (processService dl af dom) acc).regChecks =
        some lst ∧ ∃ c ∈ lst, c.id = x := by
  induction services generalizing acc with
  | nil => exact hcov
  | cons kv rest ih =>
    rw [List.foldl_cons]
    apply ih
    unfold processService
    exact checksFold_covered kv.2.checks dl _ kv.1 _ hcov

theorem processCheck_regChecks_nodup (delegates : List String)
    (reg : AgentServiceRegistration) (skey : String) (acc : SSAcc) (chk : ServiceCheck)
    (h : (acc.regChecks.map Prod.fst).Nodup) :
    ((processCheck delegates reg skey acc chk).regChecks.map Prod.fst).Nodup := by
  rcases hcr : createCheckReg chk reg with e | r
  · simp only [processCheck, hcr]
    exact h
  · simp only [processCheck, hcr]
    by_cases hdel : delegates.contains chk.type = true
    · rw [if_pos hdel]
      by_cases hrun : acc.runners.contains r.id = true
      · rw [if_pos hrun]
        exact h
      · rw [if_neg hrun]
        exact nodup_keys_alUpdate _ _ _ h
    · rw [if_neg hdel]
      exact nodup_keys_alUpdate _ _ _ h

theorem servicesFold_regChecks_nodup (services : List (String × Service)) (dl : List String)
    (af : String → String × Int) (dom : String) (acc : SSAcc)
    (h : (acc.regChecks.map Prod.fst).Nodup) :
    ((services.foldl (processService dl af dom) acc).regChecks.map Prod.fst).Nodup := by
  induction services generalizing acc with
  | nil => exact h
  | cons kv rest ih =>
    rw [List.foldl_cons]
    apply ih
    unfold processService
    have hfold : ∀ (checks : List ServiceCheck) (acc' : SSAcc),
        (acc'.regChecks.map Prod.fst).Nodup →
        ((checks.foldl (processCheck dl (createService af kv.2 dom kv.1) kv.1) acc').regChecks.map
          Prod.fst).Nodup := by
      intro checks
      induction checks with
      | nil =>
        intro acc' h'
        exact h'
      | cons c rest2 ih2 =>
        intro acc' h'
        rw [List.foldl_cons]
        exact ih2 _ (processCheck_regChecks_nodup _ _ _ _ _ h')
    exact hfold _ _ h

theorem mergeGroup_single {α : Type} (d : String) (inner : List (String × α))
    (entries : List (String × α)) :
    mergeGroup [(d, inner)] d entries =
      [(d, entries.foldl (fun inn kv => alUpdate kv.1 kv.2 inn) inner)] := by
  induction entries generalizing inner with
  | nil => rfl
  | cons kv rest ih =>
    rw [mergeGroup_cons, List.foldl_cons]
    rw [show (alLookup d [(d, inner)]).getD [] = inner from by rw [alLookup_cons_self]; rfl]
    rw [show alUpdate d (alUpdate kv.1 kv.2 inner) [(d, inner)] =
      [(d, alUpdate kv.1 kv.2 inner)] from alUpdate_cons_self _ _ _ _]
    exact ih _

theorem mergeGroup_from_nil_cons {α : Type} (d : String) (kv : String × α)
    (rest : List (String × α)) :
    mergeGroup ([] : List (String × List (String × α))) d (kv :: rest) =
      [(d, (kv :: rest).foldl (fun inn kv => alUpdate kv.1 kv.2 inn) [])] := by
  rw [mergeGroup_cons]
  show mergeGroup [(d, alUpdate kv.1 kv.2 [])] d rest = _
  rw [mergeGroup_single, List.foldl_cons]

theorem foldl_alUpdate_eq_append {α : Type} (entries : List (String × α)) :
    ∀ (pre : List (String × α)),
    ((pre.map Prod.fst ++ entries.map Prod.fst)).Nodup →
    entries.foldl (fun inn kv => alUpdate kv.1 kv.2 inn) pre = pre ++ entries := by
  induction entries with
  | nil =>
    intro pre _
    simp
  | cons kv rest ih =>
    intro pre h
    rw [List.foldl_cons]
    have hnd := h
    rw [List.map_cons, List.append_cons] at hnd
    have hk : kv.1 ∉ pre.map Prod.fst := by
      rcases (List.nodup_append.mp h) with ⟨_, _, hdis⟩
      intro hmem
      exact hdis hmem (by rw [List.map_cons]; exact List.mem_cons_self _ _)
    rw [alUpdate_of_not_mem _ _ _ hk]
    have := ih (pre ++ [kv]) (by
      rw [List.map_append]
      rw [List.map_cons] at h
      rw [List.append_cons] at h
      simpa using h)
    rw [this, List.append_assoc]
    rfl

/-! C7 — runner table vs desired-state check registry. -/

/-- C7 counterexample: on a fresh engine with delegated type script,
SetServices on a service whose checks are [unknown-type, script] creates
the script check's runner, then aborts on the construction error without
writing checkGroups — so a runner exists whose check ID is not in the
desired-state check registry, against the claimed iff. -/
theorem C7_cex :
    (setServices (newSyncer afFix ["script"]) "client" [("mix", mixedSvc)]).2 ≠ [] ∧
    (setServices (newSyncer afFix ["script"]) "client" [("mix", mixedSvc)]).1.checkRunners =
      [checkHash chkScript "_nomad-client-mix"] ∧
    (setServices (newSyncer afFix ["script"]) "client" [("mix", mixedSvc)]).1.checkGroups = [] := by
  refine ⟨by decide, by decide, by decide⟩

/-- C7 (amended): on a fresh engine, after an error-free SetServices the
runner table contains exactly the IDs of the delegated-type checks of the
submitted map, and every runner's check ID does appear in the desired-state
check registry; but when SetServices returns construction errors a runner
may exist whose ID is absent from checkGroups (see the counterexample), so
the claimed iff only holds on the error-free path. -/
theorem C7_runner_registry (af : String → String × Int) (delegates : List String)
    (d : String) (m : List (String × Service))
    (hok : (setServices (newSyncer af delegates) d m).2 = []) :
    (∀ x, x ∈ (setServices (newSyncer af delegates) d m).1.checkRunners ↔
      x ∈ delegatedCheckIDs delegates d m) ∧
    (∀ x ∈ (setServices (newSyncer af delegates) d m).1.checkRunners,
      ∃ chk ∈ flattenedChecks (setServices (newSyncer af delegates) d m).1, chk.id = x) := by
  by_cases hc : (m.foldl (processService delegates af d)
      ⟨[], [], [], []⟩ : SSAcc).errors = []
  case neg =>
    exfalso
    apply hc
    simp [setServices, newSyncer, hc] at hok
  case pos =>
    have hrunners : (setServices (newSyncer af delegates) d m).1.checkRunners =
        (m.foldl (processService delegates af d) ⟨[], [], [], []⟩ : SSAcc).runners := by
      simp [setServices, newSyncer, hc]
    have hgroups : (setServices (newSyncer af delegates) d m).1.checkGroups =
        mergeGroup [] d (m.foldl (processService delegates af d)
          ⟨[], [], [], []⟩ : SSAcc).regChecks := by
      simp [setServices, newSyncer, hc]
    constructor
    · intro x
      rw [hrunners, servicesFold_runners_mem, mem_delegatedCheckIDs]
      constructor
      · rintro (h | ⟨kv, hkv, chk, hchk, hokr, hdel, hx⟩)
        · simp at h
        · refine ⟨kv, hkv, chk, hchk, ?_, hdel, hx⟩
          exact (createCheckReg_isOk_iff chk (createService af kv.2 d kv.1)).mp hokr
      · rintro ⟨kv, hkv, chk, hchk, hty, hdel, hx⟩
        right
        refine ⟨kv, hkv, chk, hchk, ?_, hdel, hx⟩
        exact (createCheckReg_isOk_iff chk (createService af kv.2 d kv.1)).mpr hty
    · intro x hx
      rw [hrunners] at hx
      have hcov := servicesFold_covered m delegates af d ⟨[], [], [], []⟩
        (by intro y hy; simp at hy) x hx
      obtain ⟨k, lst, hlk, c0, hc0, hcid⟩ := hcov
      have hnodup : (((m.foldl (processService delegates af d)
          ⟨[], [], [], []⟩ : SSAcc).regChecks).map Prod.fst).Nodup :=
        servicesFold_regChecks_nodup m delegates af d ⟨[], [], [], []⟩ (by simp)
      refine ⟨c0, ?_, hcid⟩
      show c0 ∈ flattenedChecks (setServices (newSyncer af delegates) d m).1
      rw [show flattenedChecks (setServices (newSyncer af delegates) d m).1 =
        (((((setServices (newSyncer af delegates) d m).1.checkGroups).map
          Prod.snd).flatten).map Prod.snd).flatten from rfl, hgroups]
      rcases hentries : (m.foldl (processService delegates af d)
          ⟨[], [], [], []⟩ : SSAcc).regChecks with _ | ⟨kv0, rest0⟩
      · rw [hentries] at hlk
        exact absurd hlk (by simp [alLookup])
      · rw [hentries] at hlk hnodup
        rw [mergeGroup_from_nil_cons, foldl_alUpdate_eq_append _ _ (by simpa using hnodup)]
        have hmem : (k, lst) ∈ kv0 :: rest0 := mem_of_alLookup hlk
        simp only [List.nil_append, List.map_cons, List.map_nil, List.flatten_cons,
          List.flatten_nil, List.append_nil]
        exact List.mem_flatten.mpr ⟨lst, List.mem_map.mpr ⟨(k, lst), hmem, rfl⟩, hc0⟩

/-! C8 (machinery) — agreement makes the diff all-equal. -/

theorem diffSeed_eq {α : Type} (idL : α → String) (locals : List α)
    (hnd : (locals.map idL).Nodup) :
    diffSeed idL locals = locals.map (fun s => (idL s, ⟨s, DiffTag.l⟩)) := by
  have h1 : diffSeed idL locals =
      (locals.map (fun s => (idL s, (⟨s, DiffTag.l⟩ : MergedEntry α)))).foldl
        (fun m kv => alUpdate kv.1 kv.2 m) [] := by
    unfold diffSeed
    rw [List.foldl_map]
  rw [h1, foldl_alUpdate_eq_append _ [] (by
      rw [List.map_nil, List.nil_append, List.map_map]
      exact hnd), List.nil_append]

theorem diffSeed_lookup_mem {α : Type} (idL : α → String) (locals : List α)
    (hnd : (locals.map idL).Nodup) (s : α) (hs : s ∈ locals) :
    alLookup (idL s) (diffSeed idL locals) = some ⟨s, DiffTag.l⟩ := by
  rw [diffSeed_eq idL locals hnd]
  apply alLookup_of_mem
  · rw [List.map_map]
    exact hnd
  · exact List.mem_map.mpr ⟨s, hs, rfl⟩

theorem diffSeed_lookup_inv {α : Type} (idL : α → String) (locals : List α)
    (hnd : (locals.map idL).Nodup) (k : String) (e : MergedEntry α)
    (h : alLookup k (diffSeed idL locals) = some e) :
    ∃ s, s ∈ locals ∧ idL s = k ∧ e.reg = s ∧ e.tag = DiffTag.l := by
  rw [diffSeed_eq idL locals hnd] at h
  have hmem := mem_of_alLookup h
  rcases List.mem_map.mp hmem with ⟨s, hs, hpair⟩
  injection hpair with hk he
  exact ⟨s, hs, hk, by rw [← he], by rw [← he]⟩

theorem diffFold_keys_nodup {α β : Type} (idC : β → String) (cmp : α → β → Bool)
    (synth : β → α) (l : List β) : ∀ (m : List (String × MergedEntry α)),
    ((m.map Prod.fst)).Nodup →
    (((l.foldl (diffStep idC cmp synth) m)).map Prod.fst).Nodup := by
  induction l with
  | nil =>
    intro m h
    exact h
  | cons cs rest ih =>
    intro m h
    rw [List.foldl_cons]
    apply ih
    cases hl : alLookup (idC cs) m with
    | none =>
      simp only [diffStep, hl]
      exact nodup_keys_alUpdate _ _ _ h
    | some entry =>
      simp only [diffStep, hl]
      exact nodup_keys_alUpdate _ _ _ h

theorem diffFold_all_equal {α β : Type} (idL : α → String) (idC : β → String)
    (cmp : α → β → Bool) (synth : β → α) (locals : List α) (consul : List β)
    (hndC : (consul.map idC).Nodup)
    (h1 : ∀ s ∈ locals, ∃ cs ∈ consul, cmp s cs = true ∧ idC cs = idL s)
    (h2 : ∀ cs ∈ consul, ∃ s ∈ locals, idL s = idC cs) :
    ∀ (l : List β) (m : List (String × MergedEntry α)),
      (∀ cs ∈ l, cs ∈ consul) →
      (∀ k e, alLookup k m = some e → ∃ s, s ∈ locals ∧ idL s = k ∧ e.reg = s ∧
        (e.tag = DiffTag.l ∨ e.tag = DiffTag.e)) →
      (∀ s ∈ locals, (alLookup (idL s) m).isSome = true) →
      (∀ k e, alLookup k m = some e → e.tag = DiffTag.l → ∃ cs ∈ l, idC cs = k) →
      ∀ k e, alLookup k (l.foldl (diffStep idC cmp synth) m) = some e →
        (∃ s, s ∈ locals ∧ idL s = k ∧ e.reg = s) ∧ e.tag = DiffTag.e := by
  intro l
  induction l with
  | nil =>
    intro m hsub hI hSome hres k e hlk
    rw [List.foldl_nil] at hlk
    obtain ⟨s, hs, hid, hreg, htag⟩ := hI k e hlk
    rcases htag with htag | htag
    · obtain ⟨cs, hcs, _⟩ := hres k e hlk htag
      exact absurd hcs (by simp)
    · exact ⟨⟨s, hs, hid, hreg⟩, htag⟩
  | cons cs0 rest ih =>
    intro m hsub hI hSome hres k e hlk
    rw [List.foldl_cons] at hlk
    have hcs0 : cs0 ∈ consul := hsub cs0 (List.mem_cons_self _ _)
    cases hl0 : alLookup (idC cs0) m with
    | none =>
      exfalso
      obtain ⟨s, hs, hsid⟩ := h2 cs0 hcs0
      have hsome := hSome s hs
      rw [hsid, hl0] at hsome
      exact Bool.noConfusion hsome
    | some entry0 =>
      obtain ⟨s0, hs0, hid0, hreg0, _⟩ := hI _ _ hl0
      have hcmp : cmp entry0.reg cs0 = true := by
        obtain ⟨cs', hcs', hcmp', hid'⟩ := h1 s0 hs0
        have heq : cs' = cs0 :=
          List.inj_on_of_nodup_map hndC hcs' hcs0 (by rw [hid', hid0])
        rw [hreg0, ← heq]
        exact hcmp'
      have hstep : diffStep idC cmp synth m cs0 =
          alUpdate (idC cs0) ⟨entry0.reg, DiffTag.e⟩ m := by
        simp [diffStep, hl0, hcmp]
      rw [hstep] at hlk
      refine ih _ (fun cs hcs => hsub cs (List.mem_cons_of_mem _ hcs)) ?_ ?_ ?_ k e hlk
      · intro k' e' hlk'
        rw [alLookup_alUpdate] at hlk'
        by_cases hk : idC cs0 = k'
        · rw [if_pos hk] at hlk'
          injection hlk' with he'
          refine ⟨s0, hs0, by rw [hid0, hk], ?_, ?_⟩
          · rw [← he', hreg0]
          · rw [← he']
            exact Or.inr rfl
        · rw [if_neg hk] at hlk'
          exact hI k' e' hlk'
      · intro s hs
        rw [alLookup_alUpdate]
        by_cases hk : idC cs0 = idL s
        · rw [if_pos hk]
          rfl
        · rw [if_neg hk]
          exact hSome s hs
      · intro k' e' hlk' htl
        rw [alLookup_alUpdate] at hlk'
        by_cases hk : idC cs0 = k'
        · rw [if_pos hk] at hlk'
          injection hlk' with he'
          rw [← he'] at htl
          exact DiffTag.noConfusion htl
        · rw [if_neg hk] at hlk'
          obtain ⟨cs, hcs, hcseq⟩ := hres k' e' hlk' htl
          rcases List.mem_cons.mp hcs with he | he
          · subst he
            exact absurd hcseq hk
          · exact ⟨cs, he, hcseq⟩

theorem calcDiff_all_equal {α β : Type} (idL : α → String) (idC : β → String)
    (cmp : α → β → Bool) (synth : β → α) (locals : List α) (consul : List β)
    (hndL : (locals.map idL).Nodup) (hndC : (consul.map idC).Nodup)
    (h1 : ∀ s ∈ locals, ∃ cs ∈ consul, cmp s cs = true ∧ idC cs = idL s)
    (h2 : ∀ cs ∈ consul, ∃ s ∈ locals, idL s = idC cs) :
    (calcDiff idL idC cmp synth locals consul).missing = [] ∧
    (calcDiff idL idC cmp synth locals consul).changed = [] ∧
    (calcDiff idL idC cmp synth locals consul).stale = [] := by
  have hm0nd : ((diffSeed idL locals).map Prod.fst).Nodup := by
    rw [diffSeed_eq idL locals hndL, List.map_map]
    exact hndL
  have hmain := diffFold_all_equal idL idC cmp synth locals consul hndC h1 h2 consul
    (diffSeed idL locals) (fun cs hcs => hcs)
    (fun k e h => by
      obtain ⟨s, hs, hid, hreg, htag⟩ := diffSeed_lookup_inv idL locals hndL k e h
      exact ⟨s, hs, hid, hreg, Or.inl htag⟩)
    (fun s hs => by rw [diffSeed_lookup_mem idL locals hndL s hs]; rfl)
    (fun k e h htag => by
      obtain ⟨s, hs, hid, _, _⟩ := diffSeed_lookup_inv idL locals hndL k e h
      obtain ⟨cs, hcs, _, hcid⟩ := h1 s hs
      exact ⟨cs, hcs, by rw [hcid, hid]⟩)
  have hm1nd := diffFold_keys_nodup idC cmp synth consul _ hm0nd
  have hall : ∀ kv ∈ consul.foldl (diffStep idC cmp synth) (diffSeed idL locals),
      kv.2.tag = DiffTag.e := by
    intro kv hkv
    exact (hmain kv.1 kv.2 (alLookup_of_mem hm1nd hkv)).2
  refine ⟨?_, ?_, ?_⟩
  · apply List.filterMap_eq_nil_iff.mpr
    intro kv hkv
    rw [hall kv hkv]
    rfl
  · apply List.filterMap_eq_nil_iff.mpr
    intro kv hkv
    rw [hall kv hkv]
    rfl
  · apply List.filterMap_eq_nil_iff.mpr
    intro kv hkv
    rw [hall kv hkv]
    rfl

theorem syncServicesModel_no_calls (st : Syncer) (consulRaw : List AgentService)
    (e1 e2 : String → Bool)
    (hm : (calcServicesDiff (flattenedServices st)
      (filterConsulServices (st.servicesGroups.map Prod.fst) consulRaw)).missing = [])
    (hc : (calcServicesDiff (flattenedServices st)
      (filterConsulServices (st.servicesGroups.map Prod.fst) consulRaw)).changed = [])
    (hs : (calcServicesDiff (flattenedServices st)
      (filterConsulServices (st.servicesGroups.map Prod.fst) consulRaw)).stale = []) :
    syncServicesModel st consulRaw e1 e2 = ⟨st, [], []⟩ := by
  simp only [syncServicesModel, hm, hc, hs, List.foldl_nil]

theorem syncChecksModel_no_calls (st : Syncer) (consulRaw : List AgentCheck)
    (e1 e2 : String → Bool)
    (hm : (calcChecksDiff (flattenedChecks st)
      (filterConsulChecks (st.checkGroups.map Prod.fst) consulRaw)).missing = [])
    (hc : (calcChecksDiff (flattenedChecks st)
      (filterConsulChecks (st.checkGroups.map Prod.fst) consulRaw)).changed = [])
    (hs : (calcChecksDiff (flattenedChecks st)
      (filterConsulChecks (st.checkGroups.map Prod.fst) consulRaw)).stale = []) :
    syncChecksModel st consulRaw e1 e2 = ⟨st, [], []⟩ := by
  simp only [syncChecksModel, hm, hc, hs, List.foldl_nil]

/-! C8 — a second sync over an agreeing inventory issues no calls. -/

/-- C8: confirmed — when the agent's filtered inventories agree with the
flattened local state (every local service has an agent counterpart equal
under compareConsulService and vice versa by ID, same for checks under
compareConsulCheck, with distinct IDs on both sides), a SyncServices run
issues zero ServiceRegister, ServiceDeregister, CheckRegister and
CheckDeregister calls: both diffs put everything into the equal partition
and the state is untouched. -/
theorem C8_second_sync_idempotent (st : Syncer) (consulS : List AgentService)
    (consulC : List AgentCheck) (e1 e2 e3 e4 : String → Bool)
    (hndLS : ((flattenedServices st).map (fun s => s.id)).Nodup)
    (hndCS : ((filterConsulServices (st.servicesGroups.map Prod.fst) consulS).map
      (fun cs => cs.id)).Nodup)
    (h1S : ∀ s ∈ flattenedServices st,
      ∃ cs ∈ filterConsulServices (st.servicesGroups.map Prod.fst) consulS,
        compareConsulService s cs = true ∧ cs.id = s.id)
    (h2S : ∀ cs ∈ filterConsulServices (st.servicesGroups.map Prod.fst) consulS,
      ∃ s ∈ flattenedServices st, s.id = cs.id)
    (hndLC : ((flattenedChecks st).map (fun c => c.id)).Nodup)
    (hndCC : ((filterConsulChecks (st.checkGroups.map Prod.fst) consulC).map
      (fun cc => cc.checkID)).Nodup)
    (h1C : ∀ c ∈ flattenedChecks st,
      ∃ cc ∈ filterConsulChecks (st.checkGroups.map Prod.fst) consulC,
        compareConsulCheck c cc = true ∧ cc.checkID = c.id)
    (h2C : ∀ cc ∈ filterConsulChecks (st.checkGroups.map Prod.fst) consulC,
      ∃ c ∈ flattenedChecks st, c.id = cc.checkID) :
    (SyncServicesModel st [] consulS consulC e1 e2 e3 e4).calls = [] ∧
    (SyncServicesModel st [] consulS consulC e1 e2 e3 e4).st = st ∧
    (SyncServicesModel st [] consulS consulC e1 e2 e3 e4).errors = [] := by
  have hdS := calcDiff_all_equal (fun s => s.id) (fun cs => cs.id) compareConsulService
    synthService (flattenedServices st)
    (filterConsulServices (st.servicesGroups.map Prod.fst) consulS) hndLS hndCS h1S h2S
  have hdC := calcDiff_all_equal (fun c => c.id) (fun cc => cc.checkID) compareConsulCheck
    synthCheck (flattenedChecks st)
    (filterConsulChecks (st.checkGroups.map Prod.fst) consulC) hndLC hndCC h1C h2C
  have hsvc := syncServicesModel_no_calls st consulS e1 e2 hdS.1 hdS.2.1 hdS.2.2
  have hchk := syncChecksModel_no_calls st consulC e3 e4 hdC.1 hdC.2.1 hdC.2.2
  simp [SyncServicesModel, runHandlers, hsvc, hchk]

/-- C8 witness: a state whose desired services and checks exactly match the
agent inventory; the sync issues no calls. -/
theorem C8_second_sync_idempotent_witness :
    ((flattenedServices webChkSt).map (fun s => s.id)).Nodup ∧
    (SyncServicesModel webChkSt [] [webAgentSvc] [webAgentChk]
        (fun _ => false) (fun _ => false) (fun _ => false) (fun _ => false)).calls = [] :=
  ⟨by decide,
    (C8_second_sync_idempotent webChkSt [webAgentSvc] [webAgentChk]
      (fun _ => false) (fun _ => false) (fun _ => false) (fun _ => false)
      (by decide) (by decide) (by decide) (by decide)
      (by decide) (by decide) (by decide) (by decide)).1⟩

/-- C7 witness: the amended theorem applied to an error-free SetServices
with one script check on a fresh engine. -/
theorem C7_runner_registry_witness :
    (setServices (newSyncer afFix ["script"]) "client" [("scr", scriptSvc)]).2 = [] ∧
    (checkHash chkScript "_nomad-client-scr" ∈
        (setServices (newSyncer afFix ["script"]) "client" [("scr", scriptSvc)]).1.checkRunners ↔
      checkHash chkScript "_nomad-client-scr" ∈
        delegatedCheckIDs ["script"] "client" [("scr", scriptSvc)]) :=
  ⟨by decide,
    (C7_runner_registry afFix ["script"] "client" [("scr", scriptSvc)] (by decide)).1 _⟩

/-- C10 witness: two hyphen-free services with different names get
different keys, by the amended theorem. -/
theorem C10_keys_injective_witness :
    ('-' ∉ svcPlain1.name.data) ∧ ('-' ∉ svcPlain2.name.data) ∧
    (svcPlain1.name, svcPlain1.tags) ≠ (svcPlain2.name, svcPlain2.tags) ∧
    GenerateServiceKey svcPlain1 ≠ GenerateServiceKey svcPlain2 :=
  ⟨by decide, by decide, by decide,
    (C10_keys_injective svcPlain1 svcPlain2 (by decide) (by decide) (by decide)
      (by decide) (by decide)).1⟩

end Nomad
